import Mathlib

/-!
Verification of the mesh operations of `src/geometry/meshop.cpp`
(Melown/libgeometry): box clipping with vertex welding, non-manifold edge
removal, adaptive edge-split refinement, and ASCII PLY import.

Conventions of the shallow embedding:

* `double`/`float` arithmetic is idealised as exact rational arithmetic
  (`ℚ`).  Edge lengths, stored by the C++ refiner as `float` results of
  `ublas::norm_2(a - b)`, are represented by their squares (`sqDist`),
  an order-preserving replacement that avoids irrational square roots.
* `std::vector` becomes `List`; `std::map` becomes an association list
  (`assocFind`); a `std::set<size_t>` of face indices becomes the
  duplicate-free list obtained by filtering `List.range`.
* The refiner's `shared_ptr<Edge>` records, aliased from both the
  key→record map and the length-ordered heap, become an arena
  (`List REdge`) addressed by integer handles; map and heap hold
  handles, and mutation through either alias is an arena update.
* `Mesh`/`Face` (declared in the repository's `mesh.hpp`, which is not
  part of the sources here) and the clipping primitives `ClipPlane`,
  `ClipTriangle`, `clipTriangles` (from the missing `triclip.hpp`) are
  modelled from the spec where their doc comments say so.
-/

namespace Geo

/-- Modelled from the spec: `math::Point3` (missing math library), a 3D
point; coordinates are idealised as rationals. -/
structure V3 where
  x : ℚ
  y : ℚ
  z : ℚ
deriving DecidableEq, Repr

instance : Inhabited V3 := ⟨⟨0, 0, 0⟩⟩

def V3.add (p q : V3) : V3 := ⟨p.x + q.x, p.y + q.y, p.z + q.z⟩

def V3.sub (p q : V3) : V3 := ⟨p.x - q.x, p.y - q.y, p.z - q.z⟩

def V3.smul (c : ℚ) (p : V3) : V3 := ⟨c * p.x, c * p.y, c * p.z⟩

def dot3 (p q : V3) : ℚ := p.x * q.x + p.y * q.y + p.z * q.z

/-- Squared Euclidean distance; stands in (order-isomorphically) for the
`float` edge length `ublas::norm_2(a - b)` computed by the refiner. -/
def sqDist (p q : V3) : ℚ := dot3 (V3.sub p q) (V3.sub p q)

/-- Modelled from the spec: `math::Point2` (missing math library), a 2D
texture coordinate. -/
structure V2 where
  u : ℚ
  v : ℚ
deriving DecidableEq, Repr

instance : Inhabited V2 := ⟨⟨0, 0⟩⟩

def V2.add (p q : V2) : V2 := ⟨p.u + q.u, p.v + q.v⟩

def V2.smul (p : V2) (c : ℚ) : V2 := ⟨p.u * c, p.v * c⟩

/-- Modelled from the spec: `Face` of the missing `mesh.hpp` — three
vertex indices `a b c` and three texture indices `ta tb tc`.  The
optional surface tag `imageId`, used only by the serialisers and by no
claim, is omitted. -/
structure Face where
  a : ℕ
  b : ℕ
  c : ℕ
  ta : ℕ
  tb : ℕ
  tc : ℕ
deriving DecidableEq, Repr

instance : Inhabited Face := ⟨⟨0, 0, 0, 0, 0, 0⟩⟩

/-- Modelled from the spec: `Mesh` of the missing `mesh.hpp` — ordered
vertices, ordered texture coordinates (possibly empty), ordered faces. -/
structure Mesh where
  vertices : List V3
  tCoords : List V2
  faces : List Face
deriving DecidableEq, Repr

/-- Modelled from the spec: `Mesh::addFace` — appends a face. -/
def Mesh.addFace (m : Mesh) (a b c ta tb tc : ℕ) : Mesh :=
  { m with faces := m.faces ++ [⟨a, b, c, ta, tb, tc⟩] }

/-- Association-list lookup, the embedding of `std::map::find`. -/
def assocFind {α β : Type} [DecidableEq α] (k : α) : List (α × β) → Option β
  | [] => none
  | (a, b) :: t => if a = k then some b else assocFind k t

/-! ## Clipping pipeline (`clip`, meshop.cpp lines 237-284) -/

/-- Modelled from the spec: `math::Extents3`, an axis-aligned box given
by lower (`ll`) and upper (`ur`) corners. -/
structure Extents3 where
  ll : V3
  ur : V3

/-- Modelled from the spec: `ClipPlane` of the missing `triclip.hpp`.
The four stored numbers are exactly the four initialisers written at
meshop.cpp lines 241-246; the retained half-space is
`a*x + b*y + c*z ≥ w` (equivalently the spec's `n·x + d ≥ 0` with
`d = -w`), which makes those six initialisers realise the box
inequalities `lowerᵢ ≤ xᵢ ≤ upperᵢ` demanded by the spec. -/
structure ClipPlane where
  a : ℚ
  b : ℚ
  c : ℚ
  w : ℚ

def ClipPlane.normal (pl : ClipPlane) : V3 := ⟨pl.a, pl.b, pl.c⟩

/-- A point is retained by a plane when `n·x ≥ w`; boundary points are
inside. -/
def ClipPlane.inside (pl : ClipPlane) (p : V3) : Bool :=
  decide (pl.w ≤ dot3 pl.normal p)

/-- Modelled from the spec: the exact parametric crossing point of
segment `p q` with a clip plane, `p + t•(q-p)` where `t` solves
`n·(p + t(q-p)) = w`; this is the spec's
`t = -(n·p0+d) / (n·(p1-p0))` under `d = -w`. -/
def clipIntersect (pl : ClipPlane) (p q : V3) : V3 :=
  let t : ℚ := (pl.w - dot3 pl.normal p) / (dot3 pl.normal (V3.sub q p))
  V3.add p (V3.smul t (V3.sub q p))

/-- Modelled from the spec: `ClipTriangle` of the missing `triclip.hpp`.
`clip` constructs these from the three vertex positions only
(meshop.cpp lines 249-252), so no texture data is carried. -/
structure ClipTriangle where
  pa : V3
  pb : V3
  pc : V3
deriving DecidableEq, Repr

instance : Inhabited ClipTriangle := ⟨⟨default, default, default⟩⟩

/-- Modelled from the spec: one half-space clip of one triangle
(spec §4.1): 0 vertices outside keeps the triangle, 3 outside drops it,
otherwise the triangle is cut along its two crossing edges into 1 or 2
triangles (the quad case is split along the diagonal from the first
retained corner). -/
def clipTriangle (pl : ClipPlane) (t : ClipTriangle) : List ClipTriangle :=
  let ia := pl.inside t.pa
  let ib := pl.inside t.pb
  let ic := pl.inside t.pc
  let iab := clipIntersect pl t.pa t.pb
  let ibc := clipIntersect pl t.pb t.pc
  let ica := clipIntersect pl t.pc t.pa
  if ia then
    if ib then
      if ic then
        [t]
      else
        [⟨t.pa, t.pb, ibc⟩, ⟨t.pa, ibc, ica⟩]
    else
      if ic then
        [⟨t.pc, t.pa, iab⟩, ⟨t.pc, iab, ibc⟩]
      else
        [⟨t.pa, iab, ica⟩]
  else
    if ib then
      if ic then
        [⟨t.pb, t.pc, ica⟩, ⟨t.pb, ica, iab⟩]
      else
        [⟨t.pb, ibc, iab⟩]
    else
      if ic then
        [⟨t.pc, ica, ibc⟩]
      else
        []

/-- Modelled from the spec: `clipTriangles` of the missing
`triclip.hpp` — one plane pass over the triangle list; each input
triangle contributes its 0-2 output triangles in order.  The `tinfos`
accumulator of the C++ call is dead (never read by `clip`) and is not
modelled. -/
def clipTriangles (ts : List ClipTriangle) (pl : ClipPlane) : List ClipTriangle :=
  ts.flatMap (clipTriangle pl)

/-- The six box planes, exactly the initialisers of meshop.cpp lines
241-246. -/
def boxPlanes (extents : Extents3) : List ClipPlane :=
  [⟨1, 0, 0, extents.ll.x⟩, ⟨-1, 0, 0, -extents.ur.x⟩,
   ⟨0, 1, 0, extents.ll.y⟩, ⟨0, -1, 0, -extents.ur.y⟩,
   ⟨0, 0, 1, extents.ll.z⟩, ⟨0, 0, -1, -extents.ur.z⟩]

/-- The triangle soup fed to the clipper: one `ClipTriangle` per face,
from the three vertex positions (meshop.cpp lines 248-253). -/
def initialTris (omesh : Mesh) : List ClipTriangle :=
  omesh.faces.map (fun f =>
    ⟨omesh.vertices.getD f.a default,
     omesh.vertices.getD f.b default,
     omesh.vertices.getD f.c default⟩)

/-- The clipped triangle soup after the six sequential plane passes
(meshop.cpp lines 256-258). -/
def clipSoup (omesh : Mesh) (extents : Extents3) : List ClipTriangle :=
  (boxPlanes extents).foldl clipTriangles (initialTris omesh)

/-- State of the welding loop of `clip` (meshop.cpp lines 260-281):
the position→index map `pMap`, the `next` counter, and the output
mesh's vertices and faces. -/
structure WeldState where
  pMap : List (V3 × ℕ)
  next : ℕ
  vertices : List V3
  faces : List Face

/-- One corner of the welding loop (meshop.cpp lines 265-274):
`pMap.insert(pos, next)` keeps an existing entry (returning its index)
or inserts `next` and bumps it; the position is pushed onto the vertex
array exactly when the obtained index is `≥ vertices.size()`. -/
def weldCorner (st : WeldState) (p : V3) : WeldState × ℕ :=
  match assocFind p st.pMap with
  | some idx =>
      ({ st with
          vertices := if st.vertices.length ≤ idx
                      then st.vertices ++ [p] else st.vertices }, idx)
  | none =>
      let idx := st.next
      ({ pMap := st.pMap ++ [(p, idx)]
         next := st.next + 1
         vertices := if st.vertices.length ≤ idx
                     then st.vertices ++ [p] else st.vertices
         faces := st.faces }, idx)

/-- One triangle of the welding loop (meshop.cpp lines 263-281): weld
the three corners in order, then add the face unless two of the three
indices coincide. -/
def weldTriangle (st : WeldState) (t : ClipTriangle) : WeldState :=
  let r0 := weldCorner st t.pa
  let r1 := weldCorner r0.1 t.pb
  let r2 := weldCorner r1.1 t.pc
  if r0.2 ≠ r1.2 ∧ r1.2 ≠ r2.2 ∧ r0.2 ≠ r2.2 then
    { r2.1 with faces := r2.1.faces ++ [⟨r0.2, r1.2, r2.2, 0, 0, 0⟩] }
  else
    r2.1

/-- The full welding pass over the clipped soup. -/
def weld (ts : List ClipTriangle) : WeldState :=
  ts.foldl weldTriangle ⟨[], 0, [], []⟩

/-- `clip` (meshop.cpp lines 237-284): six half-space passes, then
vertex welding.  The output mesh's `tCoords` is the untouched (empty)
texture array of the freshly constructed `pmesh`. -/
def clip (omesh : Mesh) (extents : Extents3) : Mesh :=
  let w := weld (clipSoup omesh extents)
  { vertices := w.vertices, tCoords := [], faces := w.faces }

/-- The three corner positions of a clipped triangle, in welding
order. -/
def triCorners (t : ClipTriangle) : List V3 := [t.pa, t.pb, t.pc]

/-- All corner positions of a triangle soup, in the order the welding
loop encounters them. -/
def cornerStream (ts : List ClipTriangle) : List V3 := ts.flatMap triCorners

/-! ## First-seen order: the declarative side of the welding loop -/

/-- One step of first-occurrence deduplication. -/
def fsStep {α : Type} [DecidableEq α] (acc : List α) (p : α) : List α :=
  if p ∈ acc then acc else acc ++ [p]

def firstSeenFrom {α : Type} [DecidableEq α] (acc l : List α) : List α :=
  l.foldl fsStep acc

/-- The elements of `l` with later duplicates removed: first
occurrences only, in order of first appearance. -/
def firstSeen {α : Type} [DecidableEq α] (l : List α) : List α :=
  firstSeenFrom [] l

/-- Index of the first occurrence of `p` in a list, if any. -/
def idxA {α : Type} [DecidableEq α] (p : α) : List α → Option ℕ
  | [] => none
  | q :: t => if q = p then some 0 else (idxA p t).map (· + 1)

/-- The welded index of a position: its index among the first-seen
distinct positions (0 for a position that never occurs). -/
def specIdx (all : List V3) (p : V3) : ℕ := (idxA p (firstSeen all)).getD 0

/-- The declarative description of one welding step (spec §4.1): the
face an output triangle yields, `none` when two welded indices
coincide. -/
def specWeldFace (all : List V3) (t : ClipTriangle) : Option Face :=
  let i0 := specIdx all t.pa
  let i1 := specIdx all t.pb
  let i2 := specIdx all t.pc
  if i0 ≠ i1 ∧ i1 ≠ i2 ∧ i0 ≠ i2 then some ⟨i0, i1, i2, 0, 0, 0⟩ else none

/-! ## The welding loop satisfies the first-seen specification -/

/-- Invariant of the welding loop relative to the corners processed so
far: `next` mirrors the vertex count, the vertex array is the
first-seen deduplication of the processed corners, and the map sends
each position to its vertex index. -/
def WeldInv (st : WeldState) (seen : List V3) : Prop :=
  st.next = st.vertices.length ∧
  st.vertices = firstSeen seen ∧
  ∀ p : V3, assocFind p st.pMap = idxA p st.vertices

/-! ## Non-manifold edge removal (`removeNonManifoldEdges`, meshop.cpp
lines 287-354) -/

/-- `EdgeKey` (meshop.cpp lines 291-305, and again lines 361-375): an
undirected edge identity, canonicalised to `(min, max)`. -/
structure EdgeKey where
  v1 : ℕ
  v2 : ℕ
deriving DecidableEq, Repr

def ekey (a b : ℕ) : EdgeKey := ⟨min a b, max a b⟩

/-- The three edge keys derived from a face (lines 315-317). -/
def faceEdgeKeys (f : Face) : List EdgeKey :=
  [ekey f.a f.b, ekey f.b f.c, ekey f.c f.a]

/-- The `facesIndices` set accumulated for one edge key by the loop of
lines 313-331: the indices of faces one of whose edges is the key.
The filtered index range is strictly increasing, hence models the
`std::set<size_t>` faithfully (each incident face counted once, in
index order). -/
def incidentFaceIndices (faces : List Face) (k : EdgeKey) : List ℕ :=
  (List.range faces.length).filter
    (fun fi => decide (k ∈ faceEdgeKeys (faces.getD fi default)))

/-- The edge keys occurring in the mesh: the domain of the edge map
iterated at lines 336-342.  Duplicates are harmless — only membership
of the resulting omission list is ever used. -/
def allEdgeKeys (faces : List Face) : List EdgeKey :=
  faces.flatMap faceEdgeKeys

/-- `facesToOmit` (lines 335-342): all faces incident with an edge key
having more than two incident faces. -/
def facesToOmit (faces : List Face) : List ℕ :=
  (allEdgeKeys faces).flatMap
    (fun k => if 2 < (incidentFaceIndices faces k).length
              then incidentFaceIndices faces k else [])

/-- `removeNonManifoldEdges` (lines 287-354): the mesh is copied,
vertices and texture coordinates stay untouched, and the face list is
rebuilt (lines 344-351) from exactly the faces whose index is not
marked for omission, in index order. -/
def removeNonManifoldEdges (omesh : Mesh) : Mesh :=
  { omesh with
      faces := ((List.range omesh.faces.length).filter
          (fun fi => decide (fi ∉ facesToOmit omesh.faces))).map
        (fun fi => omesh.faces.getD fi default) }

/-- Whether a face is incident with some non-manifold edge; the
content-level reading of membership in `facesToOmit`. -/
def faceMarked (faces : List Face) (f : Face) : Bool :=
  (faceEdgeKeys f).any (fun k => decide (2 < (incidentFaceIndices faces k).length))

/-! ## Adaptive refinement (`refine`, meshop.cpp lines 357-563) -/

/-- `Edge::EdgeType` (lines 378-382): the local edge slot of a
triangle. -/
inductive EType where
  | AB
  | BC
  | CA
deriving DecidableEq, Repr

instance : Inhabited EType := ⟨EType.AB⟩

/-- The refiner's `Edge` record (lines 377-411): canonical endpoints
`v1 ≤ v2`, two incident-face slots `f1`/`f2` (`-1` when unset) with
their edge types, and the cached length (represented by its square).
The C++ constructor leaves `et1`/`et2` uninitialised; the model
defaults them to `AB` — `refine` reads a slot's type only when the
matching face id has been set. -/
structure REdge where
  v1 : ℕ
  v2 : ℕ
  f1 : ℤ
  f2 : ℤ
  et1 : EType
  et2 : EType
  lenSq : ℚ
deriving DecidableEq, Repr

instance : Inhabited REdge := ⟨⟨0, 0, -1, -1, EType.AB, EType.AB, 0⟩⟩

/-- The `Edge` constructor (lines 390-394). -/
def REdge.mkNew (pv1 pv2 : ℕ) (len : ℚ) : REdge :=
  ⟨min pv1 pv2, max pv1 pv2, -1, -1, EType.AB, EType.AB, len⟩

/-- `Edge::addFace` (lines 396-405): the endpoint-index ordering of
the contributing face decides which slot it occupies. -/
def REdge.addFace (e : REdge) (pv1 pv2 : ℕ) (fid : ℕ) (ty : EType) : REdge :=
  if pv1 < pv2 then { e with f1 := (fid : ℤ), et1 := ty }
  else { e with f2 := (fid : ℤ), et2 := ty }

/-- The `EdgeMap` state (lines 413-469) in arena form: `arena` holds
the edge records that C++ allocates behind `shared_ptr`; `map` and
`heap` hold handles into the arena, so a mutation through either alias
is one arena update seen by both. -/
structure EMState where
  arena : List REdge
  map : List (EdgeKey × ℕ)
  heap : List ℕ
deriving Repr

def emptyEM : EMState := ⟨[], [], []⟩

/-- The heap comparator `compareEdgePtr` (lines 417-419) lifted to
handles: compare the cached (squared) lengths through the arena. -/
def ltH (arena : List REdge) (h1 h2 : ℕ) : Bool :=
  decide ((arena.getD h1 default).lenSq < (arena.getD h2 default).lenSq)

/-- Exchange two positions of the heap array. -/
def swapL (l : List ℕ) (i j : ℕ) : List ℕ :=
  (l.set i (l.getD j 0)).set j (l.getD i 0)

/-- The sift-up pass of `std::push_heap`: while the parent compares
below the element at `i`, move the element up.  `fuel` bounds the
recursion (the index strictly decreases); callers supply `i + 1`. -/
def siftUp (lt : ℕ → ℕ → Bool) : List ℕ → ℕ → ℕ → List ℕ
  | l, _, 0 => l
  | l, i, fuel + 1 =>
      if i = 0 then l
      else
        let parent := (i - 1) / 2
        if lt (l.getD parent 0) (l.getD i 0) then
          siftUp lt (swapL l parent i) parent fuel
        else l

/-- The sift-down pass of `std::pop_heap`: move the element at `i`
down while a child compares above it.  `fuel` bounds the recursion
(the index strictly increases); callers supply the heap length. -/
def siftDown (lt : ℕ → ℕ → Bool) : List ℕ → ℕ → ℕ → List ℕ
  | l, _, 0 => l
  | l, i, fuel + 1 =>
      let c1 := 2 * i + 1
      let c2 := 2 * i + 2
      if c1 < l.length then
        let c := if c2 < l.length ∧ lt (l.getD c1 0) (l.getD c2 0) then c2 else c1
        if lt (l.getD i 0) (l.getD c 0) then siftDown lt (swapL l i c) c fuel
        else l
      else l

/-- `std::push_heap` after `push_back`: sift the last element up. -/
def pushHeap (lt : ℕ → ℕ → Bool) (l : List ℕ) : List ℕ :=
  siftUp lt l (l.length - 1) l.length

/-- `EdgeMap::addFaceEdge` (lines 421-436): update the record of an
existing key through the shared alias, or allocate a fresh record,
link it from the map, and push it onto the heap. -/
def addFaceEdge (st : EMState) (pv1 pv2 fid : ℕ) (ty : EType) (len : ℚ) : EMState :=
  let key := ekey pv1 pv2
  match assocFind key st.map with
  | some h =>
      { st with
          arena := st.arena.set h
            ((st.arena.getD h default).addFace pv1 pv2 fid ty) }
  | none =>
      let e := (REdge.mkNew pv1 pv2 len).addFace pv1 pv2 fid ty
      let h := st.arena.length
      { arena := st.arena ++ [e]
        map := st.map ++ [(key, h)]
        heap := pushHeap (ltH (st.arena ++ [e])) (st.heap ++ [h]) }

/-- `EdgeMap::addFaceEdges` (lines 453-463): register the three edges
of face `fid` with their lengths. -/
def addFaceEdges (m : Mesh) (fid : ℕ) (st : EMState) : EMState :=
  let f := m.faces.getD fid default
  let e1 := sqDist (m.vertices.getD f.a default) (m.vertices.getD f.b default)
  let st1 := addFaceEdge st f.a f.b fid EType.AB e1
  let e2 := sqDist (m.vertices.getD f.b default) (m.vertices.getD f.c default)
  let st2 := addFaceEdge st1 f.b f.c fid EType.BC e2
  let e3 := sqDist (m.vertices.getD f.c default) (m.vertices.getD f.a default)
  addFaceEdge st2 f.c f.a fid EType.CA e3

/-- `EdgeMap::pop_top_edge` (lines 438-447): copy the record at the
heap root, re-heapify without it (`std::pop_heap` moves the root to
the back and sifts, then `pop_back` drops it), and erase the record's
key from the map.  On an empty heap the C++ code would read out of
bounds; the model returns the state unchanged — the loop guard makes
that unreachable. -/
def popTopEdge (st : EMState) : REdge × EMState :=
  match st.heap with
  | [] => (default, st)
  | h0 :: _ =>
      let e := st.arena.getD h0 default
      let n := st.heap.length
      let rest := (st.heap.set 0 (st.heap.getD (n - 1) 0)).dropLast
      let heap2 := siftDown (ltH st.arena) rest 0 rest.length
      (e, { st with
              map := st.map.filter (fun pr => decide (pr.1 ≠ ekey e.v1 e.v2))
              heap := heap2 })

/-- The state of one `refine` run: the working mesh, the edge
structure, and a (ghost) count of the splits performed so far. -/
structure RState where
  mesh : Mesh
  em : EMState
  steps : ℕ

/-- The `splitEdge` lambda (lines 473-534): append the midpoint
texture coordinate when textures exist, append the new half face, then
overwrite the far corner of the face in place, and re-register the
edges of both faces. -/
def splitEdge (s : RState) (fid : ℕ) (ty : EType) (vid : ℕ) : RState :=
  let m := s.mesh
  let f := m.faces.getD fid default
  match ty with
  | EType.AB =>
      let tc := if 0 < m.tCoords.length then
          m.tCoords ++ [(V2.add (m.tCoords.getD f.ta default)
            (m.tCoords.getD f.tb default)).smul (1/2)]
        else m.tCoords
      let newFace : Face := ⟨f.b, f.c, vid, f.tb, f.tc, tc.length - 1⟩
      let faces1 := (m.faces ++ [newFace]).set fid
        { f with b := vid, tb := tc.length - 1 }
      let m1 : Mesh := ⟨m.vertices, tc, faces1⟩
      let em1 := addFaceEdges m1 fid s.em
      let em2 := addFaceEdges m1 (faces1.length - 1) em1
      { s with mesh := m1, em := em2 }
  | EType.BC =>
      let tc := if 0 < m.tCoords.length then
          m.tCoords ++ [(V2.add (m.tCoords.getD f.tb default)
            (m.tCoords.getD f.tc default)).smul (1/2)]
        else m.tCoords
      let newFace : Face := ⟨f.c, f.a, vid, f.tc, f.ta, tc.length - 1⟩
      let faces1 := (m.faces ++ [newFace]).set fid
        { f with c := vid, tc := tc.length - 1 }
      let m1 : Mesh := ⟨m.vertices, tc, faces1⟩
      let em1 := addFaceEdges m1 fid s.em
      let em2 := addFaceEdges m1 (faces1.length - 1) em1
      { s with mesh := m1, em := em2 }
  | EType.CA =>
      let tc := if 0 < m.tCoords.length then
          m.tCoords ++ [(V2.add (m.tCoords.getD f.tc default)
            (m.tCoords.getD f.ta default)).smul (1/2)]
        else m.tCoords
      let newFace : Face := ⟨f.a, f.b, vid, f.ta, f.tb, tc.length - 1⟩
      let faces1 := (m.faces ++ [newFace]).set fid
        { f with a := vid, ta := tc.length - 1 }
      let m1 : Mesh := ⟨m.vertices, tc, faces1⟩
      let em1 := addFaceEdges m1 fid s.em
      let em2 := addFaceEdges m1 (faces1.length - 1) em1
      { s with mesh := m1, em := em2 }

/-- The two guarded face splits of one loop iteration (lines
551-559). -/
def refineSplits (s1 : RState) (edge : REdge) (vid : ℕ) : RState :=
  let s2 := if 0 ≤ edge.f1 then splitEdge s1 edge.f1.toNat edge.et1 vid else s1
  if 0 ≤ edge.f2 then splitEdge s2 edge.f2.toNat edge.et2 vid else s2

/-- The midpoint vertex appended by one loop iteration (lines
547-549). -/
def refineMid (s : RState) : V3 :=
  (V3.add (s.mesh.vertices.getD (popTopEdge s.em).1.v1 default)
    (s.mesh.vertices.getD (popTopEdge s.em).1.v2 default)).smul (1/2)

/-- The state after popping the top edge and appending the midpoint
vertex, before the face splits. -/
def refinePre (s : RState) : RState :=
  ⟨⟨s.mesh.vertices ++ [refineMid s], s.mesh.tCoords, s.mesh.faces⟩,
   (popTopEdge s.em).2, s.steps + 1⟩

/-- One iteration of the main loop (lines 542-560): pop the top edge,
append the midpoint vertex, split the up to two incident faces. -/
def refineStep (s : RState) : RState :=
  refineSplits (refinePre s) (popTopEdge s.em).1
    ((refinePre s).mesh.vertices.length - 1)

/-- The loop condition of line 542. -/
def refineCond (maxN : ℕ) (s : RState) : Prop :=
  s.mesh.faces.length < maxN ∧ 0 < s.em.heap.length

instance (maxN : ℕ) (s : RState) : Decidable (refineCond maxN s) :=
  inferInstanceAs (Decidable (_ ∧ _))

/-- The main loop, with explicit fuel.  The fuel supplied by
`refineState` provably dominates the loop measure, so the zero-fuel
branch is never the reason the loop stops (`refineState_exit`
below). -/
def refineLoop (maxN : ℕ) : ℕ → RState → RState
  | 0, s => s
  | fuel + 1, s =>
      if refineCond maxN s then refineLoop maxN fuel (refineStep s) else s

/-- The initialisation loop (lines 536-539). -/
def refineInit (m : Mesh) : EMState :=
  (List.range m.faces.length).foldl (fun st i => addFaceEdges m i st) emptyEM

/-- Loop measure: each iteration either raises the face count towards
`maxN` (adding at most 12 heap entries) or, with no face slot set,
shrinks the heap by the popped entry. -/
def refineMeasure (maxN : ℕ) (s : RState) : ℕ :=
  13 * (maxN - s.mesh.faces.length) + s.em.heap.length

/-- The final state of `refine` (lines 357-562). -/
def refineState (m : Mesh) (maxN : ℕ) : RState :=
  refineLoop maxN (refineMeasure maxN ⟨m, refineInit m, 0⟩ + 1)
    ⟨m, refineInit m, 0⟩

def refine (m : Mesh) (maxN : ℕ) : Mesh := (refineState m maxN).mesh

/-- The number of edge-split steps performed by a `refine` run. -/
def refineSteps (m : Mesh) (maxN : ℕ) : ℕ := (refineState m maxN).steps

/-- The mesh index invariant of spec §3: every face's vertex indices
are in range, and when texture coordinates exist every face's texture
indices are in range. -/
def goodMesh (m : Mesh) : Prop :=
  (∀ f ∈ m.faces, f.a < m.vertices.length ∧ f.b < m.vertices.length ∧
    f.c < m.vertices.length) ∧
  (m.tCoords ≠ [] → ∀ f ∈ m.faces, f.ta < m.tCoords.length ∧
    f.tb < m.tCoords.length ∧ f.tc < m.tCoords.length)

/-! ### Edge-structure invariants -/

/-- Invariant of the edge structure relative to a vertex count `V` and
a face count `F`: heap handles and map handles address the arena,
every record has at least one face slot set (the slot set at record
creation is never unset), set slots address real faces, and map keys
join real vertices. -/
def EMInv (V F : ℕ) (st : EMState) : Prop :=
  (∀ h ∈ st.heap, h < st.arena.length) ∧
  (∀ e ∈ st.arena, 0 ≤ e.f1 ∨ 0 ≤ e.f2) ∧
  (∀ e ∈ st.arena, (0 ≤ e.f1 → e.f1.toNat < F) ∧ (0 ≤ e.f2 → e.f2.toNat < F)) ∧
  (∀ pr ∈ st.map, pr.2 < st.arena.length ∧ pr.1.v1 < V ∧ pr.1.v2 < V)

/-- No key of the map touches the vertex `vid`. -/
def noVid (vid : ℕ) (mp : List (EdgeKey × ℕ)) : Prop :=
  ∀ pr ∈ mp, pr.1.v1 ≠ vid ∧ pr.1.v2 ≠ vid

/-! ### State invariant of one refinement run -/

/-- The reachable-state invariant of a `refine` run: the edge
structure respects the current vertex and face counts, and every face
has in-range vertex indices. -/
def RInv (s : RState) : Prop :=
  EMInv s.mesh.vertices.length s.mesh.faces.length s.em ∧
  ∀ f ∈ s.mesh.faces, f.a < s.mesh.vertices.length ∧
    f.b < s.mesh.vertices.length ∧ f.c < s.mesh.vertices.length

/-- Texture-index invariant, tracked separately (it is needed only for
the mesh index invariant claim, not for termination). -/
def TexInv (s : RState) : Prop :=
  s.mesh.tCoords ≠ [] → ∀ f ∈ s.mesh.faces,
    f.ta < s.mesh.tCoords.length ∧ f.tb < s.mesh.tCoords.length ∧
    f.tc < s.mesh.tCoords.length

/-! ### Edge re-linking after a split (`Edge::addFace` slot discipline) -/

/-- Well-formedness of the edge map: handles are pairwise distinct and
address the arena.  (Holds for reachable states; the re-linking facts
below assume it.) -/
def EMWF (st : EMState) : Prop :=
  (st.map.map Prod.snd).Nodup ∧ ∀ pr ∈ st.map, pr.2 < st.arena.length

/-- The record of the undirected edge `(p,q)` references, in the slot
selected by the endpoint ordering `p < q`, the face `fid` with local
edge slot `ty`, while the opposite slot keeps whatever face the map of
`old` recorded there. -/
def edgeSlotLinked (old new : EMState) (p q fid : ℕ) (ty : EType) : Prop :=
  ∃ h, assocFind (ekey p q) new.map = some h ∧ h < new.arena.length ∧
    (if p < q
      then (new.arena.getD h default).f1 = (fid : ℤ) ∧
           (new.arena.getD h default).et1 = ty
      else (new.arena.getD h default).f2 = (fid : ℤ) ∧
           (new.arena.getD h default).et2 = ty) ∧
    ∀ h₀, assocFind (ekey p q) old.map = some h₀ →
      (if p < q
        then (new.arena.getD h default).f2 = (old.arena.getD h₀ default).f2 ∧
             (new.arena.getD h default).et2 = (old.arena.getD h₀ default).et2
        else (new.arena.getD h default).f1 = (old.arena.getD h₀ default).f1 ∧
             (new.arena.getD h default).et1 = (old.arena.getD h₀ default).et1)

/-! ## PLY import (`loadPly`, meshop.cpp lines 160-202)

The file is modelled as the list of its lines (each `getline`); the body
is read from the whitespace-separated tokens of the remaining lines
(`operator>>`).  Stream failures (`badbit | failbit` exceptions) and
`utility::expect` surface as `Except.error`. -/

def isWs (c : Char) : Bool := c = ' ' || c = '\t'

def wordsGo : List Char → List Char → List (List Char)
  | [], acc => if acc = [] then [] else [acc.reverse]
  | c :: cs, acc =>
    if isWs c then
      (if acc = [] then wordsGo cs [] else acc.reverse :: wordsGo cs [])
    else wordsGo cs (c :: acc)

/-- The whitespace-separated tokens of one line. -/
def lineTokens (s : String) : List (List Char) := wordsGo s.toList []

def isPrefixOfChars : List Char → List Char → Bool
  | [], _ => true
  | _ :: _, [] => false
  | a :: as, b :: bs => a = b && isPrefixOfChars as bs

def digitsToNat : List Char → ℕ → ℕ
  | [], acc => acc
  | c :: cs, acc => digitsToNat cs (acc * 10 + (c.toNat - 48))

/-- A whole token as an unsigned decimal numeral. -/
def parseNat (cs : List Char) : Option ℕ :=
  if !cs.isEmpty && cs.all Char.isDigit then some (digitsToNat cs 0) else none

/-- A whole token as a signed decimal integer (`operator>>(int&)`). -/
def parseInt (cs : List Char) : Option ℤ :=
  match cs with
  | '-' :: rest => (parseNat rest).map (fun n => -(n : ℤ))
  | _ => (parseNat cs).map (fun n => (n : ℤ))

/-- A whole token as a decimal number (`operator>>(double&)`), the
values idealised to exact rationals. -/
def parseRat (cs : List Char) : Option ℚ :=
  let neg := cs.headD ' ' = '-'
  let body := if neg then cs.drop 1 else cs
  match body.splitOn '.' with
  | [w] => (parseNat w).map (fun n => if neg then -(n : ℚ) else (n : ℚ))
  | [w, fr] =>
    match parseNat w, parseNat fr with
    | some i, some f =>
      let v : ℚ := (i : ℚ) + (f : ℚ) / (10 : ℚ) ^ fr.length
      some (if neg then -v else v)
    | _, _ => none
  | _ => none

/-- The `%d` conversion of `sscanf`: skip leading blanks, then a signed
numeral; text after the numeral is ignored. -/
def scanInt (cs : List Char) : Option ℤ :=
  match cs.dropWhile isWs with
  | '-' :: rest =>
    let ds := rest.takeWhile Char.isDigit
    if ds.isEmpty then none else some (-(digitsToNat ds 0 : ℤ))
  | other =>
    let ds := other.takeWhile Char.isDigit
    if ds.isEmpty then none else some ((digitsToNat ds 0 : ℤ))

/-- `sscanf(line, "element vertex %d", &nvert)`: the scanned count when
the line matches. -/
def scanElementVertex (line : String) : Option ℤ :=
  if isPrefixOfChars "element vertex".toList line.toList then
    scanInt (line.toList.drop 14)
  else none

/-- `sscanf(line, "element face %d", &ntris)`. -/
def scanElementFace (line : String) : Option ℤ :=
  if isPrefixOfChars "element face".toList line.toList then
    scanInt (line.toList.drop 12)
  else none

/-- The header loop of `loadPly`: scan every line for both counts until
the `end_header` sentinel; running out of lines is a stream failure. -/
def plyHeader : List String → ℤ → ℤ → Except String (ℤ × ℤ × List String)
  | [], _, _ => .error "stream: unexpected end of file"
  | line :: rest, nvert, ntris =>
    let nvert := (scanElementVertex line).getD nvert
    let ntris := (scanElementFace line).getD ntris
    if line = "end_header" then .ok (nvert, ntris, rest)
    else plyHeader rest nvert ntris

/-- The vertex loop of `loadPly`: `nvert` coordinate triples from the
token stream. -/
def readVertices :
    ℕ → List (List Char) → Except String (List V3 × List (List Char))
  | 0, toks => .ok ([], toks)
  | n + 1, tx :: ty :: tz :: rest =>
    match parseRat tx, parseRat ty, parseRat tz with
    | some x, some y, some z =>
      match readVertices n rest with
      | .ok (vs, toks) => .ok (⟨x, y, z⟩ :: vs, toks)
      | .error e => .error e
    | _, _, _ => .error "stream: malformed vertex"
  | _ + 1, _ => .error "stream: unexpected end of file"

/-- The face loop of `loadPly`: each record is four integers `n a b c`,
read in full before `n == 3` is checked (`utility::expect`). -/
def readFaces :
    ℕ → List (List Char) → Except String (List Face × List (List Char))
  | 0, toks => .ok ([], toks)
  | n + 1, tn :: ta :: tb :: tc :: rest =>
    match parseInt tn, parseInt ta, parseInt tb, parseInt tc with
    | some k, some a, some b, some c =>
      if k = 3 then
        match readFaces n rest with
        | .ok (fs, toks) => .ok (⟨a.toNat, b.toNat, c.toNat, 0, 0, 0⟩ :: fs, toks)
        | .error e => .error e
      else .error "Only triangles are supported in PLY files."
    | _, _, _, _ => .error "stream: malformed face"
  | _ + 1, _ => .error "stream: unexpected end of file"

/-- `loadPly` (meshop.cpp lines 160-202) on the lines of an ASCII PLY
file: scan the header for the two counts, reject the file if either is
missing, then read `nvert` coordinate triples and `ntris` face records
from the body's token stream. -/
def loadPly (lines : List String) : Except String Mesh :=
  match plyHeader lines (-1) (-1) with
  | .error e => .error e
  | .ok (nvert, ntris, rest) =>
    if nvert < 0 ∨ ntris < 0 then .error "unknown PLY format"
    else
      match readVertices nvert.toNat ((rest.map lineTokens).flatten) with
      | .error e => .error e
      | .ok (vs, toks) =>
        match readFaces ntris.toNat toks with
        | .error e => .error e
        | .ok (fs, _) => .ok ⟨vs, [], fs⟩

/-- A small two-triangle strip used to instantiate the refinement
facts. -/
def sampleMesh : Mesh :=
  ⟨[⟨0, 0, 0⟩, ⟨1, 0, 0⟩, ⟨1, 1, 0⟩, ⟨0, 1, 0⟩], [],
   [⟨0, 1, 2, 0, 0, 0⟩, ⟨0, 2, 3, 0, 0, 0⟩]⟩

/-! ## Lemmas about first-seen order and index lookup -/

lemma firstSeenFrom_nil {α : Type} [DecidableEq α] (acc : List α) :
    firstSeenFrom acc [] = acc := rfl

lemma firstSeenFrom_cons {α : Type} [DecidableEq α] (acc : List α) (p : α) (l : List α) :
    firstSeenFrom acc (p :: l) = firstSeenFrom (fsStep acc p) l := rfl

lemma firstSeenFrom_append {α : Type} [DecidableEq α] (acc l1 l2 : List α) :
    firstSeenFrom acc (l1 ++ l2) = firstSeenFrom (firstSeenFrom acc l1) l2 :=
  List.foldl_append _ _ _ _

lemma firstSeen_append_one {α : Type} [DecidableEq α] (l : List α) (p : α) :
    firstSeen (l ++ [p]) = fsStep (firstSeen l) p := by
  rw [firstSeen, firstSeenFrom_append]; rfl

lemma firstSeenFrom_suffix {α : Type} [DecidableEq α] (acc l : List α) :
    ∃ t, firstSeenFrom acc l = acc ++ t := by
  induction l generalizing acc with
  | nil => exact ⟨[], by simp [firstSeenFrom_nil]⟩
  | cons p l ih =>
      rw [firstSeenFrom_cons]
      by_cases hp : p ∈ acc
      · rw [fsStep, if_pos hp]; exact ih acc
      · rw [fsStep, if_neg hp]
        obtain ⟨t, ht⟩ := ih (acc ++ [p])
        exact ⟨p :: t, by rw [ht]; simp⟩

lemma mem_firstSeenFrom {α : Type} [DecidableEq α] (a : α) (acc l : List α) :
    a ∈ firstSeenFrom acc l ↔ a ∈ acc ∨ a ∈ l := by
  induction l generalizing acc with
  | nil => simp [firstSeenFrom_nil]
  | cons p l ih =>
      rw [firstSeenFrom_cons, ih]
      by_cases hp : p ∈ acc
      · simp only [fsStep, if_pos hp, List.mem_cons]
        constructor
        · rintro (h | h)
          · exact Or.inl h
          · exact Or.inr (Or.inr h)
        · rintro (h | h | h)
          · exact Or.inl h
          · exact Or.inl (h ▸ hp)
          · exact Or.inr h
      · simp only [fsStep, if_neg hp, List.mem_append, List.mem_singleton,
          List.mem_cons]
        tauto

lemma mem_firstSeen {α : Type} [DecidableEq α] (a : α) (l : List α) :
    a ∈ firstSeen l ↔ a ∈ l := by
  rw [firstSeen, mem_firstSeenFrom]; simp

lemma nodup_firstSeenFrom {α : Type} [DecidableEq α] (acc l : List α)
    (h : acc.Nodup) : (firstSeenFrom acc l).Nodup := by
  induction l generalizing acc with
  | nil => exact h
  | cons p l ih =>
      rw [firstSeenFrom_cons]
      refine ih _ ?_
      by_cases hp : p ∈ acc
      · rwa [fsStep, if_pos hp]
      · rw [fsStep, if_neg hp]
        simp only [List.nodup_append, List.nodup_singleton, true_and]
        exact ⟨h, by simpa [List.disjoint_singleton] using hp⟩

lemma nodup_firstSeen {α : Type} [DecidableEq α] (l : List α) :
    (firstSeen l).Nodup :=
  nodup_firstSeenFrom [] l List.nodup_nil

lemma idxA_eq_none_iff {α : Type} [DecidableEq α] (p : α) (l : List α) :
    idxA p l = none ↔ p ∉ l := by
  induction l with
  | nil => simp [idxA]
  | cons q t ih =>
      by_cases hq : q = p
      · simp [idxA, hq]
      · simp [idxA, hq, ih, Ne.symm hq]

lemma idxA_lt {α : Type} [DecidableEq α] {p : α} {l : List α} {i : ℕ}
    (h : idxA p l = some i) : i < l.length := by
  induction l generalizing i with
  | nil => simp [idxA] at h
  | cons q t ih =>
      by_cases hq : q = p
      · rw [idxA, if_pos hq] at h
        cases h
        simp
      · rw [idxA, if_neg hq] at h
        rcases Option.map_eq_some'.mp h with ⟨j, hj, rfl⟩
        have := ih hj
        simp only [List.length_cons]
        omega

lemma idxA_append_left {α : Type} [DecidableEq α] {p : α} {l1 : List α}
    {i : ℕ} (l2 : List α) (h : idxA p l1 = some i) :
    idxA p (l1 ++ l2) = some i := by
  induction l1 generalizing i with
  | nil => simp [idxA] at h
  | cons q t ih =>
      by_cases hq : q = p
      · rw [idxA, if_pos hq] at h
        cases h
        simp [idxA, hq]
      · rw [idxA, if_neg hq] at h
        rcases Option.map_eq_some'.mp h with ⟨j, hj, rfl⟩
        rw [List.cons_append, idxA, if_neg hq, ih hj]
        rfl

lemma idxA_append_ne {α : Type} [DecidableEq α] {p q : α} (h : q ≠ p)
    (l : List α) : idxA p (l ++ [q]) = idxA p l := by
  induction l with
  | nil => simp [idxA, h]
  | cons r t ih => simp [idxA, ih]

lemma idxA_append_self {α : Type} [DecidableEq α] {p : α} {l : List α}
    (h : p ∉ l) : idxA p (l ++ [p]) = some l.length := by
  induction l with
  | nil => simp [idxA]
  | cons q t ih =>
      have hq : q ≠ p := by
        intro hqe; exact h (hqe ▸ List.mem_cons_self q t)
      have ht : p ∉ t := fun hm => h (List.mem_cons_of_mem _ hm)
      simp [idxA, hq, ih ht]

lemma idxA_mem {α : Type} [DecidableEq α] {p : α} {l : List α}
    (h : p ∈ l) : ∃ i, idxA p l = some i := by
  cases hx : idxA p l with
  | none => exact absurd ((idxA_eq_none_iff p l).mp hx) (by simpa using h)
  | some i => exact ⟨i, rfl⟩

lemma assocFind_append_some {α β : Type} [DecidableEq α] {k : α}
    {l1 l2 : List (α × β)} {v : β} (h : assocFind k l1 = some v) :
    assocFind k (l1 ++ l2) = some v := by
  induction l1 with
  | nil => simp [assocFind] at h
  | cons e t ih =>
      by_cases he : e.1 = k
      · rw [← e.eta] at h ⊢
        rw [assocFind, if_pos he] at h
        simpa [assocFind, he] using h
      · rw [← e.eta] at h ⊢
        rw [assocFind, if_neg he] at h
        simpa [assocFind, he] using ih h

lemma assocFind_append_none {α β : Type} [DecidableEq α] {k : α}
    {l1 : List (α × β)} (l2 : List (α × β)) (h : assocFind k l1 = none) :
    assocFind k (l1 ++ l2) = assocFind k l2 := by
  induction l1 with
  | nil => simp
  | cons e t ih =>
      rw [← e.eta] at h ⊢
      by_cases he : e.1 = k
      · rw [assocFind, if_pos he] at h
        cases h
      · rw [assocFind, if_neg he] at h
        simpa [assocFind, he] using ih h

lemma specIdx_stable {pre : List V3} (rest : List V3) {p : V3}
    (hp : p ∈ pre) : specIdx (pre ++ rest) p = specIdx pre p := by
  have hmem : p ∈ firstSeen pre := (mem_firstSeen p pre).mpr hp
  obtain ⟨i, hi⟩ := idxA_mem hmem
  obtain ⟨t, ht⟩ := firstSeenFrom_suffix (firstSeen pre) rest
  have hall : firstSeen (pre ++ rest) = firstSeen pre ++ t := by
    rw [firstSeen, firstSeenFrom_append]; exact ht
  rw [specIdx, specIdx, hall, idxA_append_left t hi, hi]

lemma specWeldFace_stable {pre : List V3} (rest : List V3)
    {t : ClipTriangle} (h1 : t.pa ∈ pre) (h2 : t.pb ∈ pre)
    (h3 : t.pc ∈ pre) :
    specWeldFace (pre ++ rest) t = specWeldFace pre t := by
  rw [specWeldFace, specWeldFace, specIdx_stable rest h1,
    specIdx_stable rest h2, specIdx_stable rest h3]

lemma weldInv_init : WeldInv ⟨[], 0, [], []⟩ [] :=
  ⟨rfl, rfl, fun _ => rfl⟩

lemma weldCorner_spec (st : WeldState) (seen : List V3) (p : V3)
    (h : WeldInv st seen) :
    WeldInv (weldCorner st p).1 (seen ++ [p]) ∧
    idxA p (weldCorner st p).1.vertices = some (weldCorner st p).2 ∧
    (weldCorner st p).1.faces = st.faces ∧
    ∃ u, (weldCorner st p).1.vertices = st.vertices ++ u := by
  obtain ⟨hn, hv, hm⟩ := h
  cases hfind : assocFind p st.pMap with
  | some idx =>
      have hidx : idxA p st.vertices = some idx := by rw [← hm p, hfind]
      have hlt : idx < st.vertices.length := idxA_lt hidx
      have hmem : p ∈ st.vertices := by
        by_contra hc
        rw [(idxA_eq_none_iff p st.vertices).mpr hc] at hidx
        cases hidx
      have hcond : ¬ st.vertices.length ≤ idx := by omega
      have hfs : firstSeen (seen ++ [p]) = st.vertices := by
        rw [firstSeen_append_one, fsStep, if_pos (hv ▸ hmem), hv]
      simp only [weldCorner, hfind, if_neg hcond]
      refine ⟨⟨hn, hfs.symm, hm⟩, hidx, ?_, ⟨[], by simp⟩⟩
      trivial
  | none =>
      have hidx : idxA p st.vertices = none := by rw [← hm p, hfind]
      have hmem : p ∉ st.vertices := (idxA_eq_none_iff p st.vertices).mp hidx
      have hcond : st.vertices.length ≤ st.next := by omega
      have hfs : firstSeen (seen ++ [p]) = st.vertices ++ [p] := by
        rw [firstSeen_append_one, fsStep, if_neg (hv ▸ hmem), hv]
      simp only [weldCorner, hfind, if_pos hcond]
      refine ⟨⟨?_, ?_, ?_⟩, ?_, ?_, ⟨[p], ?_⟩⟩
      · simp [hn]
      · exact hfs.symm
      · intro q
        by_cases hq : q = p
        · subst hq
          rw [assocFind_append_none _ hfind, idxA_append_self hmem, ← hn]
          simp [assocFind]
        · have hpq : p ≠ q := fun hpq => hq hpq.symm
          have hans : assocFind q [(p, st.next)] = none := by
            simp [assocFind, hpq]
          have hrhs : idxA q (st.vertices ++ [p]) = idxA q st.vertices :=
            idxA_append_ne (fun hpq => hq hpq.symm) _
          cases hx : assocFind q st.pMap with
          | some v =>
              rw [assocFind_append_some hx, hrhs, ← hm q, hx]
          | none =>
              rw [assocFind_append_none _ hx, hans, hrhs, ← hm q, hx]
      · rw [idxA_append_self hmem, hn]
      · trivial
      · rfl

lemma weldTriangle_spec (st : WeldState) (seen : List V3) (t : ClipTriangle)
    (h : WeldInv st seen) :
    WeldInv (weldTriangle st t) (seen ++ triCorners t) ∧
    (weldTriangle st t).faces
      = st.faces ++ (specWeldFace (seen ++ triCorners t) t).toList := by
  obtain ⟨h0, hi0, hf0, u0, hu0⟩ := weldCorner_spec st seen t.pa h
  obtain ⟨h1, hi1, hf1, u1, hu1⟩ := weldCorner_spec _ _ t.pb h0
  obtain ⟨h2, hi2, hf2, u2, hu2⟩ := weldCorner_spec _ _ t.pc h1
  have heq : ((seen ++ [t.pa]) ++ [t.pb]) ++ [t.pc] = seen ++ triCorners t := by
    simp [triCorners]
  rw [heq] at h2
  set r0 := weldCorner st t.pa with hr0
  set r1 := weldCorner r0.1 t.pb with hr1
  set r2 := weldCorner r1.1 t.pc with hr2
  -- the three welded indices, read back through the final vertex array
  have hv3a : idxA t.pa r2.1.vertices = some r0.2 := by
    rw [hu2, hu1]
    exact idxA_append_left _ (idxA_append_left _ hi0)
  have hv3b : idxA t.pb r2.1.vertices = some r1.2 := by
    rw [hu2]
    exact idxA_append_left _ hi1
  have hv3c : idxA t.pc r2.1.vertices = some r2.2 := hi2
  have hfsv : r2.1.vertices = firstSeen (seen ++ triCorners t) := h2.2.1
  have hsa : specIdx (seen ++ triCorners t) t.pa = r0.2 := by
    rw [specIdx, ← hfsv, hv3a]; rfl
  have hsb : specIdx (seen ++ triCorners t) t.pb = r1.2 := by
    rw [specIdx, ← hfsv, hv3b]; rfl
  have hsc : specIdx (seen ++ triCorners t) t.pc = r2.2 := by
    rw [specIdx, ← hfsv, hv3c]; rfl
  have hwt : weldTriangle st t
      = if r0.2 ≠ r1.2 ∧ r1.2 ≠ r2.2 ∧ r0.2 ≠ r2.2 then
          { r2.1 with faces := r2.1.faces ++ [⟨r0.2, r1.2, r2.2, 0, 0, 0⟩] }
        else r2.1 := rfl
  have hswf : specWeldFace (seen ++ triCorners t) t
      = if r0.2 ≠ r1.2 ∧ r1.2 ≠ r2.2 ∧ r0.2 ≠ r2.2 then
          some ⟨r0.2, r1.2, r2.2, 0, 0, 0⟩
        else none := by
    rw [specWeldFace]
    simp only [hsa, hsb, hsc]
  by_cases hd : r0.2 ≠ r1.2 ∧ r1.2 ≠ r2.2 ∧ r0.2 ≠ r2.2
  · rw [hwt, if_pos hd, hswf, if_pos hd]
    refine ⟨⟨h2.1, h2.2.1, h2.2.2⟩, ?_⟩
    rw [hf2, hf1, hf0]
    rfl
  · rw [hwt, if_neg hd, hswf, if_neg hd]
    refine ⟨h2, ?_⟩
    rw [hf2, hf1, hf0]
    simp

lemma filterMap_cons_toList {α β : Type} (f : α → Option β) (a : α)
    (l : List α) :
    (f a).toList ++ l.filterMap f = (a :: l).filterMap f := by
  cases h : f a <;> simp [List.filterMap_cons, h]

lemma weld_fold (ts : List ClipTriangle) (st : WeldState) (seen : List V3)
    (h : WeldInv st seen) :
    WeldInv (ts.foldl weldTriangle st) (seen ++ cornerStream ts) ∧
    (ts.foldl weldTriangle st).faces
      = st.faces ++ ts.filterMap (specWeldFace (seen ++ cornerStream ts)) := by
  induction ts generalizing st seen with
  | nil =>
      constructor
      · simpa [cornerStream] using h
      · simp
  | cons t ts ih =>
      obtain ⟨hinv, hfaces⟩ := weldTriangle_spec st seen t h
      obtain ⟨hinv2, hfaces2⟩ := ih (weldTriangle st t) (seen ++ triCorners t) hinv
      have hall : (seen ++ triCorners t) ++ cornerStream ts
          = seen ++ cornerStream (t :: ts) := by
        simp [cornerStream]
      constructor
      · rw [List.foldl_cons]
        exact hall ▸ hinv2
      · have hstab : specWeldFace ((seen ++ triCorners t) ++ cornerStream ts) t
            = specWeldFace (seen ++ triCorners t) t :=
          specWeldFace_stable _ (by simp [triCorners]) (by simp [triCorners])
            (by simp [triCorners])
        rw [List.foldl_cons, hfaces2, hfaces, ← hall, ← filterMap_cons_toList,
          hstab, List.append_assoc]

lemma weld_vertices (ts : List ClipTriangle) :
    (weld ts).vertices = firstSeen (cornerStream ts) := by
  have h := (weld_fold ts ⟨[], 0, [], []⟩ [] weldInv_init).1.2.1
  simpa [weld] using h

lemma weld_faces (ts : List ClipTriangle) :
    (weld ts).faces = ts.filterMap (specWeldFace (cornerStream ts)) := by
  have h := (weld_fold ts ⟨[], 0, [], []⟩ [] weldInv_init).2
  simpa [weld] using h

lemma clip_vertices_eq (m : Mesh) (e : Extents3) :
    (clip m e).vertices = firstSeen (cornerStream (clipSoup m e)) := by
  rw [clip]
  exact weld_vertices _

lemma clip_faces_eq (m : Mesh) (e : Extents3) :
    (clip m e).faces = (clipSoup m e).filterMap
      (specWeldFace (cornerStream (clipSoup m e))) := by
  rw [clip]
  exact weld_faces _

lemma clip_tCoords_eq (m : Mesh) (e : Extents3) : (clip m e).tCoords = [] := rfl

lemma clip_vertices_nodup (m : Mesh) (e : Extents3) :
    (clip m e).vertices.Nodup := by
  rw [clip_vertices_eq]
  exact nodup_firstSeen _

lemma specIdx_lt_of_mem {all : List V3} {p : V3} (h : p ∈ all) :
    specIdx all p < (firstSeen all).length := by
  obtain ⟨i, hi⟩ := idxA_mem ((mem_firstSeen p all).mpr h)
  rw [specIdx, hi]
  exact idxA_lt hi

lemma specWeldFace_fields {all : List V3} {t : ClipTriangle} {f : Face}
    (h : specWeldFace all t = some f) :
    f = ⟨specIdx all t.pa, specIdx all t.pb, specIdx all t.pc, 0, 0, 0⟩ := by
  simp only [specWeldFace] at h
  split at h
  · cases h; rfl
  · cases h

lemma weld_faces_good (ts : List ClipTriangle) :
    ∀ f ∈ (weld ts).faces,
      f.a < (weld ts).vertices.length ∧
      f.b < (weld ts).vertices.length ∧
      f.c < (weld ts).vertices.length := by
  intro f hf
  rw [weld_faces] at hf
  obtain ⟨t, ht, hform⟩ := List.mem_filterMap.mp hf
  have hpa : t.pa ∈ cornerStream ts := by
    simp only [cornerStream, List.mem_flatMap]
    exact ⟨t, ht, by simp [triCorners]⟩
  have hpb : t.pb ∈ cornerStream ts := by
    simp only [cornerStream, List.mem_flatMap]
    exact ⟨t, ht, by simp [triCorners]⟩
  have hpc : t.pc ∈ cornerStream ts := by
    simp only [cornerStream, List.mem_flatMap]
    exact ⟨t, ht, by simp [triCorners]⟩
  rw [specWeldFace_fields hform, weld_vertices]
  exact ⟨specIdx_lt_of_mem hpa, specIdx_lt_of_mem hpb, specIdx_lt_of_mem hpc⟩

lemma clip_faces_good (m : Mesh) (e : Extents3) :
    ∀ f ∈ (clip m e).faces,
      f.a < (clip m e).vertices.length ∧
      f.b < (clip m e).vertices.length ∧
      f.c < (clip m e).vertices.length := by
  simp only [clip]
  exact weld_faces_good (clipSoup m e)

/-! ## Linearity of the plane evaluation and the crossing point -/

lemma dot3_add (n p q : V3) : dot3 n (V3.add p q) = dot3 n p + dot3 n q := by
  simp only [dot3, V3.add]
  ring

lemma dot3_smul (n : V3) (c : ℚ) (p : V3) :
    dot3 n (V3.smul c p) = c * dot3 n p := by
  simp only [dot3, V3.smul]
  ring

lemma dot3_sub (n p q : V3) : dot3 n (V3.sub p q) = dot3 n p - dot3 n q := by
  simp only [dot3, V3.sub]
  ring

/-- The crossing point computed by the clipper lies exactly on the clip
plane whenever the segment properly crosses it. -/
lemma clipIntersect_on_plane (pl : ClipPlane) (p q : V3)
    (hp : pl.w ≤ dot3 pl.normal p) (hq : dot3 pl.normal q < pl.w) :
    dot3 pl.normal (clipIntersect pl p q) = pl.w := by
  have hden : dot3 pl.normal (V3.sub q p) ≠ 0 := by
    rw [dot3_sub]
    intro hc
    have : dot3 pl.normal q = dot3 pl.normal p := by linarith
    rw [this] at hq
    linarith
  simp only [clipIntersect]
  rw [dot3_add, dot3_smul, div_mul_cancel₀ _ hden]
  ring

/-! ### Index-level to content-level translation -/

lemma rangeFilterMap {α : Type} (l : List α) (p : α → Bool) (d : α) :
    (((List.range l.length).filter (fun i => p (l.getD i d))).map
      (fun i => l.getD i d)) = l.filter p := by
  induction l using List.reverseRecOn with
  | nil => simp
  | append_singleton l x ih =>
      have hcong : (List.range l.length).filter
            (fun i => p ((l ++ [x]).getD i d))
          = (List.range l.length).filter (fun i => p (l.getD i d)) := by
        apply List.filter_congr
        intro i hi
        rw [List.getD_append _ _ _ _ (List.mem_range.mp hi)]
      have hx : (l ++ [x]).getD l.length d = x := by
        rw [List.getD_eq_getElem?_getD]
        simp
      have hmapcong :
          ((List.range l.length).filter (fun i => p (l.getD i d))).map
            (fun i => (l ++ [x]).getD i d)
          = ((List.range l.length).filter (fun i => p (l.getD i d))).map
            (fun i => l.getD i d) := by
        apply List.map_congr_left
        intro i hi
        have : i < l.length := List.mem_range.mp (List.mem_of_mem_filter hi)
        rw [List.getD_append _ _ _ _ this]
      rw [List.length_append, List.length_singleton, List.range_succ,
        List.filter_append, hcong, List.map_append, hmapcong, ih,
        List.filter_append]
      by_cases hp : p x
      · simp [hx, hp]
      · simp [hx, hp]

lemma incidentFaceIndices_length (faces : List Face) (k : EdgeKey) :
    (incidentFaceIndices faces k).length
      = (faces.filter (fun f => decide (k ∈ faceEdgeKeys f))).length := by
  have h := rangeFilterMap faces (fun f => decide (k ∈ faceEdgeKeys f)) default
  have := congrArg List.length h
  rwa [List.length_map] at this

lemma mem_incidentFaceIndices {faces : List Face} {k : EdgeKey} {fi : ℕ} :
    fi ∈ incidentFaceIndices faces k
      ↔ fi < faces.length ∧ k ∈ faceEdgeKeys (faces.getD fi default) := by
  simp [incidentFaceIndices, List.mem_filter, List.mem_range]

lemma mem_facesToOmit {faces : List Face} {fi : ℕ} :
    fi ∈ facesToOmit faces
      ↔ fi < faces.length ∧ faceMarked faces (faces.getD fi default) = true := by
  constructor
  · intro h
    obtain ⟨k, _, hin⟩ := List.mem_flatMap.mp h
    by_cases hc : 2 < (incidentFaceIndices faces k).length
    · rw [if_pos hc] at hin
      obtain ⟨hlt, hkmem⟩ := mem_incidentFaceIndices.mp hin
      refine ⟨hlt, ?_⟩
      rw [faceMarked, List.any_eq_true]
      exact ⟨k, hkmem, by simpa using hc⟩
    · rw [if_neg hc] at hin
      cases hin
  · rintro ⟨hlt, hmk⟩
    rw [faceMarked, List.any_eq_true] at hmk
    obtain ⟨k, hkmem, hbad⟩ := hmk
    have hbad' : 2 < (incidentFaceIndices faces k).length := by simpa using hbad
    apply List.mem_flatMap.mpr
    refine ⟨k, ?_, ?_⟩
    · apply List.mem_flatMap.mpr
      refine ⟨faces.getD fi default, ?_, hkmem⟩
      rw [List.getD_eq_getElem?_getD, List.getElem?_eq_getElem hlt]
      exact List.getElem_mem hlt
    · rw [if_pos hbad']
      exact mem_incidentFaceIndices.mpr ⟨hlt, hkmem⟩

lemma removeNonManifoldEdges_faces (m : Mesh) :
    (removeNonManifoldEdges m).faces
      = m.faces.filter (fun f => !(faceMarked m.faces f)) := by
  rw [removeNonManifoldEdges]
  have hcong : (List.range m.faces.length).filter
        (fun fi => decide (fi ∉ facesToOmit m.faces))
      = (List.range m.faces.length).filter
        (fun fi => !(faceMarked m.faces (m.faces.getD fi default))) := by
    apply List.filter_congr
    intro i hi
    have hlt : i < m.faces.length := List.mem_range.mp hi
    by_cases hm : faceMarked m.faces (m.faces.getD i default) = true
    · simp [hm, mem_facesToOmit, hlt]
    · simp [hm, mem_facesToOmit, hlt]
  rw [hcong, rangeFilterMap m.faces (fun f => !(faceMarked m.faces f)) default]

lemma length_filter_and_le {α : Type} (l : List α) (p q : α → Bool) :
    (l.filter (fun a => p a && q a)).length ≤ (l.filter p).length := by
  induction l with
  | nil => simp
  | cons a l ih =>
      by_cases hp : p a
      · by_cases hq : q a
        · simp only [List.filter_cons, hp, hq]
          simpa using ih
        · simp only [List.filter_cons, hp, hq]
          simp only [Bool.and_false, Bool.false_eq_true, if_false, if_true,
            List.length_cons]
          omega
      · simp only [List.filter_cons, hp]
        simpa using ih

/-- The manifold postcondition: every edge key is incident with at
most two faces of the output of `removeNonManifoldEdges`. -/
lemma removeNonManifoldEdges_manifold (m : Mesh) (k : EdgeKey) :
    (incidentFaceIndices (removeNonManifoldEdges m).faces k).length ≤ 2 := by
  rw [incidentFaceIndices_length, removeNonManifoldEdges_faces]
  rw [List.filter_filter]
  by_cases h2 : (incidentFaceIndices m.faces k).length ≤ 2
  · calc (m.faces.filter
          (fun f => decide (k ∈ faceEdgeKeys f) && !(faceMarked m.faces f))).length
        ≤ (m.faces.filter (fun f => decide (k ∈ faceEdgeKeys f))).length :=
          length_filter_and_le _ _ _
      _ = (incidentFaceIndices m.faces k).length :=
          (incidentFaceIndices_length m.faces k).symm
      _ ≤ 2 := h2
  · have hempty : m.faces.filter
        (fun f => decide (k ∈ faceEdgeKeys f) && !(faceMarked m.faces f)) = [] := by
      rw [List.filter_eq_nil_iff]
      intro f hf
      simp only [Bool.and_eq_true, decide_eq_true_eq, Bool.not_eq_true']
      rintro ⟨hkf, hnm⟩
      have : faceMarked m.faces f = true := by
        rw [faceMarked, List.any_eq_true]
        exact ⟨k, hkf, by simp; omega⟩
      rw [this] at hnm
      cases hnm
    rw [hempty]
    simp

/-! ### Heap primitives: sizes and membership -/

lemma swapL_length (l : List ℕ) (i j : ℕ) : (swapL l i j).length = l.length := by
  simp [swapL]

lemma getD_mem_of_lt {l : List ℕ} {j : ℕ} (hj : j < l.length) :
    l.getD j 0 ∈ l := by
  rw [List.getD_eq_getElem?_getD, List.getElem?_eq_getElem hj]
  exact List.getElem_mem hj

lemma mem_swapL {l : List ℕ} {i j : ℕ} (hi : i < l.length)
    (hj : j < l.length) : ∀ a ∈ swapL l i j, a ∈ l := by
  intro a ha
  rw [swapL] at ha
  rcases List.mem_or_eq_of_mem_set ha with ha' | rfl
  · rcases List.mem_or_eq_of_mem_set ha' with ha'' | rfl
    · exact ha''
    · exact getD_mem_of_lt hj
  · exact getD_mem_of_lt hi

lemma siftUp_length (lt : ℕ → ℕ → Bool) (fuel : ℕ) :
    ∀ (l : List ℕ) (i : ℕ), (siftUp lt l i fuel).length = l.length := by
  induction fuel with
  | zero => intro l i; rfl
  | succ fuel ih =>
      intro l i
      rw [siftUp]
      by_cases h0 : i = 0
      · rw [if_pos h0]
      · rw [if_neg h0]
        by_cases hlt : lt (l.getD ((i - 1) / 2) 0) (l.getD i 0)
        · rw [if_pos hlt, ih, swapL_length]
        · rw [if_neg hlt]

lemma siftUp_subset (lt : ℕ → ℕ → Bool) (fuel : ℕ) :
    ∀ (l : List ℕ) (i : ℕ), i < l.length →
      ∀ a ∈ siftUp lt l i fuel, a ∈ l := by
  induction fuel with
  | zero => intro l i _ a ha; exact ha
  | succ fuel ih =>
      intro l i hi a ha
      rw [siftUp] at ha
      by_cases h0 : i = 0
      · rw [if_pos h0] at ha; exact ha
      · rw [if_neg h0] at ha
        have hpar : (i - 1) / 2 < l.length := by
          have : (i - 1) / 2 ≤ i - 1 := Nat.div_le_self _ _
          omega
        by_cases hlt : lt (l.getD ((i - 1) / 2) 0) (l.getD i 0)
        · rw [if_pos hlt] at ha
          have hpar' : (i - 1) / 2 < (swapL l ((i - 1) / 2) i).length := by
            rw [swapL_length]; exact hpar
          exact mem_swapL hpar hi a (ih _ _ hpar' a ha)
        · rw [if_neg hlt] at ha; exact ha

lemma siftDown_length (lt : ℕ → ℕ → Bool) (fuel : ℕ) :
    ∀ (l : List ℕ) (i : ℕ), (siftDown lt l i fuel).length = l.length := by
  induction fuel with
  | zero => intro l i; rfl
  | succ fuel ih =>
      intro l i
      rw [siftDown]
      by_cases hc : 2 * i + 1 < l.length
      · rw [if_pos hc]
        by_cases hlt : lt (l.getD i 0)
            (l.getD (if 2 * i + 2 < l.length ∧ lt (l.getD (2 * i + 1) 0) (l.getD (2 * i + 2) 0)
              then 2 * i + 2 else 2 * i + 1) 0)
        · rw [if_pos hlt, ih, swapL_length]
        · rw [if_neg hlt]
      · rw [if_neg hc]

lemma siftDown_subset (lt : ℕ → ℕ → Bool) (fuel : ℕ) :
    ∀ (l : List ℕ) (i : ℕ), ∀ a ∈ siftDown lt l i fuel, a ∈ l := by
  induction fuel with
  | zero => intro l i a ha; exact ha
  | succ fuel ih =>
      intro l i a ha
      rw [siftDown] at ha
      by_cases hc : 2 * i + 1 < l.length
      · rw [if_pos hc] at ha
        have hi : i < l.length := by omega
        set c := if 2 * i + 2 < l.length ∧ lt (l.getD (2 * i + 1) 0) (l.getD (2 * i + 2) 0)
          then 2 * i + 2 else 2 * i + 1 with hcdef
        have hcl : c < l.length := by
          rw [hcdef]
          split
          · omega
          · exact hc
        by_cases hlt : lt (l.getD i 0) (l.getD c 0)
        · rw [if_pos hlt] at ha
          exact mem_swapL hi hcl a (ih _ _ a ha)
        · rw [if_neg hlt] at ha; exact ha
      · rw [if_neg hc] at ha; exact ha

lemma pushHeap_length (lt : ℕ → ℕ → Bool) (l : List ℕ) :
    (pushHeap lt l).length = l.length := by
  rw [pushHeap, siftUp_length]

lemma pushHeap_subset (lt : ℕ → ℕ → Bool) (l : List ℕ) :
    ∀ a ∈ pushHeap lt l, a ∈ l := by
  cases l with
  | nil => intro a ha; cases ha
  | cons x xs =>
      intro a ha
      exact siftUp_subset lt _ _ _ (by simp) a ha

/-! ### `addFaceEdge`: case equations and size facts -/

lemma addFaceEdge_found {st : EMState} {pv1 pv2 fid : ℕ} {ty : EType}
    {len : ℚ} {h : ℕ} (hf : assocFind (ekey pv1 pv2) st.map = some h) :
    addFaceEdge st pv1 pv2 fid ty len
      = { st with arena :=
            st.arena.set h ((st.arena.getD h default).addFace pv1 pv2 fid ty) } := by
  rw [addFaceEdge]
  simp only [hf]

lemma addFaceEdge_fresh {st : EMState} {pv1 pv2 fid : ℕ} {ty : EType}
    {len : ℚ} (hf : assocFind (ekey pv1 pv2) st.map = none) :
    addFaceEdge st pv1 pv2 fid ty len
      = { arena := st.arena ++ [(REdge.mkNew pv1 pv2 len).addFace pv1 pv2 fid ty]
          map := st.map ++ [(ekey pv1 pv2, st.arena.length)]
          heap := pushHeap
            (ltH (st.arena ++ [(REdge.mkNew pv1 pv2 len).addFace pv1 pv2 fid ty]))
            (st.heap ++ [st.arena.length]) } := by
  rw [addFaceEdge]
  simp only [hf]

lemma addFaceEdge_heap_ge (st : EMState) (pv1 pv2 fid : ℕ) (ty : EType)
    (len : ℚ) :
    st.heap.length ≤ (addFaceEdge st pv1 pv2 fid ty len).heap.length := by
  cases hf : assocFind (ekey pv1 pv2) st.map with
  | some h => rw [addFaceEdge_found hf]
  | none =>
      rw [addFaceEdge_fresh hf]
      simp only [pushHeap_length, List.length_append, List.length_singleton]
      omega

lemma addFaceEdge_heap_le (st : EMState) (pv1 pv2 fid : ℕ) (ty : EType)
    (len : ℚ) :
    (addFaceEdge st pv1 pv2 fid ty len).heap.length ≤ st.heap.length + 1 := by
  cases hf : assocFind (ekey pv1 pv2) st.map with
  | some h => rw [addFaceEdge_found hf]; exact Nat.le_succ _
  | none =>
      rw [addFaceEdge_fresh hf]
      simp only [pushHeap_length, List.length_append, List.length_singleton]
      omega

lemma addFaceEdge_heap_fresh {st : EMState} {pv1 pv2 fid : ℕ} {ty : EType}
    {len : ℚ} (hf : assocFind (ekey pv1 pv2) st.map = none) :
    (addFaceEdge st pv1 pv2 fid ty len).heap.length = st.heap.length + 1 := by
  rw [addFaceEdge_fresh hf]
  simp [pushHeap_length]

/-! ### `addFaceEdges`: composed size facts -/

lemma addFaceEdges_heap_ge (m : Mesh) (fid : ℕ) (st : EMState) :
    st.heap.length ≤ (addFaceEdges m fid st).heap.length := by
  rw [addFaceEdges]
  calc st.heap.length
      ≤ _ := addFaceEdge_heap_ge st _ _ _ _ _
    _ ≤ _ := addFaceEdge_heap_ge _ _ _ _ _ _
    _ ≤ _ := addFaceEdge_heap_ge _ _ _ _ _ _

lemma addFaceEdges_heap_le (m : Mesh) (fid : ℕ) (st : EMState) :
    (addFaceEdges m fid st).heap.length ≤ st.heap.length + 3 := by
  rw [addFaceEdges]
  calc (addFaceEdge _ _ _ _ _ _).heap.length
      ≤ _ + 1 := addFaceEdge_heap_le _ _ _ _ _ _
    _ ≤ (_ + 1) + 1 := by exact Nat.add_le_add_right (addFaceEdge_heap_le _ _ _ _ _ _) 1
    _ ≤ ((st.heap.length + 1) + 1) + 1 := by
        exact Nat.add_le_add_right (Nat.add_le_add_right (addFaceEdge_heap_le _ _ _ _ _ _) 1) 1
    _ = st.heap.length + 3 := by omega

/-! ### `splitEdge` and `popTopEdge`: sizes and frame facts -/

lemma splitEdge_vertices (s : RState) (fid : ℕ) (ty : EType) (vid : ℕ) :
    (splitEdge s fid ty vid).mesh.vertices = s.mesh.vertices := by
  cases ty <;> rfl

lemma splitEdge_steps (s : RState) (fid : ℕ) (ty : EType) (vid : ℕ) :
    (splitEdge s fid ty vid).steps = s.steps := by
  cases ty <;> rfl

lemma splitEdge_faces_length (s : RState) (fid : ℕ) (ty : EType) (vid : ℕ) :
    (splitEdge s fid ty vid).mesh.faces.length = s.mesh.faces.length + 1 := by
  cases ty <;> simp [splitEdge]

lemma splitEdge_heap_ge (s : RState) (fid : ℕ) (ty : EType) (vid : ℕ) :
    s.em.heap.length ≤ (splitEdge s fid ty vid).em.heap.length := by
  cases ty <;>
    exact le_trans (addFaceEdges_heap_ge _ _ _) (addFaceEdges_heap_ge _ _ _)

lemma addFaceEdges_twice_le (m : Mesh) (fid1 fid2 : ℕ) (st : EMState) :
    (addFaceEdges m fid2 (addFaceEdges m fid1 st)).heap.length
      ≤ st.heap.length + 6 := by
  have h1 := addFaceEdges_heap_le m fid1 st
  have h2 := addFaceEdges_heap_le m fid2 (addFaceEdges m fid1 st)
  omega

lemma splitEdge_heap_le (s : RState) (fid : ℕ) (ty : EType) (vid : ℕ) :
    (splitEdge s fid ty vid).em.heap.length ≤ s.em.heap.length + 6 := by
  cases ty <;> exact addFaceEdges_twice_le _ _ _ _

lemma popTopEdge_arena (st : EMState) : ((popTopEdge st).2).arena = st.arena := by
  obtain ⟨ar, mp, hp⟩ := st
  cases hp <;> rfl

lemma popTopEdge_heap_length {st : EMState} (h : st.heap ≠ []) :
    ((popTopEdge st).2).heap.length = st.heap.length - 1 := by
  obtain ⟨ar, mp, hp⟩ := st
  cases hp with
  | nil => exact absurd rfl h
  | cons h0 t =>
      simp only [popTopEdge, siftDown_length, List.length_dropLast,
        List.length_set]

lemma popTopEdge_heap_subset (st : EMState) :
    ∀ a ∈ ((popTopEdge st).2).heap, a ∈ st.heap := by
  obtain ⟨ar, mp, hp⟩ := st
  cases hp with
  | nil => intro a ha; exact ha
  | cons h0 t =>
      intro a ha
      simp only [popTopEdge] at ha
      have h1 := siftDown_subset _ _ _ _ a ha
      have h2 := (List.dropLast_sublist _).subset h1
      rcases List.mem_or_eq_of_mem_set h2 with h3 | rfl
      · exact h3
      · exact getD_mem_of_lt (by simp)

lemma popTopEdge_map_subset (st : EMState) :
    ∀ pr ∈ ((popTopEdge st).2).map, pr ∈ st.map := by
  obtain ⟨ar, mp, hp⟩ := st
  cases hp with
  | nil => intro pr hpr; exact hpr
  | cons h0 t =>
      intro pr hpr
      simp only [popTopEdge] at hpr
      exact List.mem_of_mem_filter hpr

lemma popTopEdge_fst {st : EMState} (h : st.heap ≠ []) :
    ∃ h0 ∈ st.heap, (popTopEdge st).1 = st.arena.getD h0 default := by
  obtain ⟨ar, mp, hp⟩ := st
  cases hp with
  | nil => exact absurd rfl h
  | cons h0 t => exact ⟨h0, by simp, rfl⟩

/-! ### `refineSplits` and `refineStep`: sizes -/

lemma refineSplits_vertices (s1 : RState) (e : REdge) (vid : ℕ) :
    (refineSplits s1 e vid).mesh.vertices = s1.mesh.vertices := by
  rw [refineSplits]
  by_cases h2 : (0 : ℤ) ≤ e.f2 <;> by_cases h1 : (0 : ℤ) ≤ e.f1 <;>
    simp [h1, h2, splitEdge_vertices]

lemma refineSplits_steps (s1 : RState) (e : REdge) (vid : ℕ) :
    (refineSplits s1 e vid).steps = s1.steps := by
  rw [refineSplits]
  by_cases h2 : (0 : ℤ) ≤ e.f2 <;> by_cases h1 : (0 : ℤ) ≤ e.f1 <;>
    simp [h1, h2, splitEdge_steps]

lemma refineSplits_faces_ge (s1 : RState) (e : REdge) (vid : ℕ) :
    s1.mesh.faces.length ≤ (refineSplits s1 e vid).mesh.faces.length := by
  rw [refineSplits]
  by_cases h2 : (0 : ℤ) ≤ e.f2 <;> by_cases h1 : (0 : ℤ) ≤ e.f1 <;>
    simp [h1, h2, splitEdge_faces_length] <;> omega

lemma refineSplits_faces_le (s1 : RState) (e : REdge) (vid : ℕ) :
    (refineSplits s1 e vid).mesh.faces.length ≤ s1.mesh.faces.length + 2 := by
  rw [refineSplits]
  by_cases h2 : (0 : ℤ) ≤ e.f2 <;> by_cases h1 : (0 : ℤ) ≤ e.f1 <;>
    simp [h1, h2, splitEdge_faces_length] <;> omega

lemma refineSplits_faces_succ {s1 : RState} {e : REdge} (vid : ℕ)
    (h : 0 ≤ e.f1 ∨ 0 ≤ e.f2) :
    s1.mesh.faces.length + 1 ≤ (refineSplits s1 e vid).mesh.faces.length := by
  rw [refineSplits]
  by_cases h1 : (0 : ℤ) ≤ e.f1
  · rw [if_pos h1]
    by_cases h2 : (0 : ℤ) ≤ e.f2
    · rw [if_pos h2]
      have ha := splitEdge_faces_length s1 e.f1.toNat e.et1 vid
      have hb := splitEdge_faces_length (splitEdge s1 e.f1.toNat e.et1 vid)
        e.f2.toNat e.et2 vid
      omega
    · rw [if_neg h2]
      have ha := splitEdge_faces_length s1 e.f1.toNat e.et1 vid
      omega
  · rw [if_neg h1]
    rcases h with h | h
    · exact absurd h h1
    · rw [if_pos h]
      have hb := splitEdge_faces_length s1 e.f2.toNat e.et2 vid
      omega

lemma refineSplits_heap_le (s1 : RState) (e : REdge) (vid : ℕ) :
    (refineSplits s1 e vid).em.heap.length ≤ s1.em.heap.length + 12 := by
  rw [refineSplits]
  by_cases h2 : (0 : ℤ) ≤ e.f2 <;> by_cases h1 : (0 : ℤ) ≤ e.f1 <;>
    simp only [h1, h2, if_pos, if_neg, if_true, if_false]
  · have ha := splitEdge_heap_le s1 e.f1.toNat e.et1 vid
    have hb := splitEdge_heap_le (splitEdge s1 e.f1.toNat e.et1 vid)
      e.f2.toNat e.et2 vid
    omega
  · have hb := splitEdge_heap_le s1 e.f2.toNat e.et2 vid
    omega
  · have ha := splitEdge_heap_le s1 e.f1.toNat e.et1 vid
    omega
  · omega

lemma refineSplits_heap_ge (s1 : RState) (e : REdge) (vid : ℕ) :
    s1.em.heap.length ≤ (refineSplits s1 e vid).em.heap.length := by
  rw [refineSplits]
  by_cases h2 : (0 : ℤ) ≤ e.f2 <;> by_cases h1 : (0 : ℤ) ≤ e.f1 <;>
    simp only [h1, h2, if_pos, if_neg, if_true, if_false]
  · have ha := splitEdge_heap_ge s1 e.f1.toNat e.et1 vid
    have hb := splitEdge_heap_ge (splitEdge s1 e.f1.toNat e.et1 vid)
      e.f2.toNat e.et2 vid
    omega
  · have hb := splitEdge_heap_ge s1 e.f2.toNat e.et2 vid
    omega
  · have ha := splitEdge_heap_ge s1 e.f1.toNat e.et1 vid
    omega
  · omega

lemma refinePre_faces (s : RState) :
    (refinePre s).mesh.faces = s.mesh.faces := rfl

lemma refinePre_tCoords (s : RState) :
    (refinePre s).mesh.tCoords = s.mesh.tCoords := rfl

lemma refinePre_steps (s : RState) : (refinePre s).steps = s.steps + 1 := rfl

lemma refinePre_em (s : RState) : (refinePre s).em = (popTopEdge s.em).2 := rfl

lemma refinePre_vertices_length (s : RState) :
    (refinePre s).mesh.vertices.length = s.mesh.vertices.length + 1 := by
  simp [refinePre]

lemma refineStep_vertices (s : RState) :
    (refineStep s).mesh.vertices.length = s.mesh.vertices.length + 1 := by
  rw [refineStep, refineSplits_vertices, refinePre_vertices_length]

lemma refineStep_steps (s : RState) : (refineStep s).steps = s.steps + 1 := by
  rw [refineStep, refineSplits_steps, refinePre_steps]

lemma refineStep_faces_ge (s : RState) :
    s.mesh.faces.length ≤ (refineStep s).mesh.faces.length := by
  rw [refineStep]
  have h := refineSplits_faces_ge (refinePre s) (popTopEdge s.em).1
    ((refinePre s).mesh.vertices.length - 1)
  rwa [refinePre_faces] at h

/-- The loop measure strictly decreases whenever the loop condition
holds: either at least one face is split (driving the face count
towards `maxN`, with at most 12 new heap entries against 13 units of
measure), or nothing is split and the heap shrinks by the popped
entry. -/
lemma refineStep_measure {maxN : ℕ} {s : RState} (hc : refineCond maxN s) :
    refineMeasure maxN (refineStep s) < refineMeasure maxN s := by
  obtain ⟨hfaces, hheap⟩ := hc
  have hne : s.em.heap ≠ [] := by
    intro h
    rw [h] at hheap
    cases hheap
  have hs1f : (refinePre s).mesh.faces.length = s.mesh.faces.length := by
    rw [refinePre_faces]
  have hs1h : (refinePre s).em.heap.length = s.em.heap.length - 1 := by
    rw [refinePre_em]
    exact popTopEdge_heap_length hne
  rw [refineStep]
  set e := (popTopEdge s.em).1 with he
  set vid := (refinePre s).mesh.vertices.length - 1 with hvid
  by_cases hsplit : 0 ≤ e.f1 ∨ 0 ≤ e.f2
  · have hfge := @refineSplits_faces_succ (refinePre s) e vid hsplit
    have hfle := refineSplits_faces_le (refinePre s) e vid
    have hhle := refineSplits_heap_le (refinePre s) e vid
    rw [refineMeasure, refineMeasure]
    omega
  · push_neg at hsplit
    have h1 : ¬ (0 : ℤ) ≤ e.f1 := not_le.mpr hsplit.1
    have h2 : ¬ (0 : ℤ) ≤ e.f2 := not_le.mpr hsplit.2
    have hid : refineSplits (refinePre s) e vid = refinePre s := by
      rw [refineSplits]
      simp [h1, h2]
    rw [hid, refineMeasure, refineMeasure]
    omega

lemma EMInv.mono {V F V' F' : ℕ} {st : EMState} (h : EMInv V F st)
    (hV : V ≤ V') (hF : F ≤ F') : EMInv V' F' st := by
  obtain ⟨h1, h2, h3, h4⟩ := h
  refine ⟨h1, h2, ?_, ?_⟩
  · intro e he
    exact ⟨fun hf => lt_of_lt_of_le ((h3 e he).1 hf) hF,
           fun hf => lt_of_lt_of_le ((h3 e he).2 hf) hF⟩
  · intro pr hpr
    obtain ⟨ha, hb, hc⟩ := h4 pr hpr
    exact ⟨ha, lt_of_lt_of_le hb hV, lt_of_lt_of_le hc hV⟩

lemma ekey_v1_cases (a b : ℕ) : (ekey a b).v1 = a ∨ (ekey a b).v1 = b := by
  rw [ekey]
  rcases le_total a b with h | h
  · left; simp [min_eq_left h]
  · right; simp [min_eq_right h]

lemma ekey_v2_cases (a b : ℕ) : (ekey a b).v2 = a ∨ (ekey a b).v2 = b := by
  rw [ekey]
  rcases le_total a b with h | h
  · right; simp [max_eq_right h]
  · left; simp [max_eq_left h]

lemma ekey_contains_snd (a b : ℕ) : (ekey a b).v1 = b ∨ (ekey a b).v2 = b := by
  rw [ekey]
  rcases le_total a b with h | h
  · right; simp [max_eq_right h]
  · left; simp [min_eq_right h]

lemma REdge.addFace_slot_or (e : REdge) (pv1 pv2 fid : ℕ) (ty : EType) :
    0 ≤ (e.addFace pv1 pv2 fid ty).f1 ∨ 0 ≤ (e.addFace pv1 pv2 fid ty).f2 := by
  rw [REdge.addFace]
  by_cases h : pv1 < pv2
  · rw [if_pos h]; left; exact Int.ofNat_nonneg fid
  · rw [if_neg h]; right; exact Int.ofNat_nonneg fid

lemma REdge.addFace_slot_lt {F : ℕ} (e : REdge) (pv1 pv2 fid : ℕ) (ty : EType)
    (hfid : fid < F)
    (he : (0 ≤ e.f1 → e.f1.toNat < F) ∧ (0 ≤ e.f2 → e.f2.toNat < F)) :
    (0 ≤ (e.addFace pv1 pv2 fid ty).f1 → (e.addFace pv1 pv2 fid ty).f1.toNat < F) ∧
    (0 ≤ (e.addFace pv1 pv2 fid ty).f2 → (e.addFace pv1 pv2 fid ty).f2.toNat < F) := by
  rw [REdge.addFace]
  by_cases h : pv1 < pv2
  · rw [if_pos h]
    exact ⟨fun _ => by simpa using hfid, he.2⟩
  · rw [if_neg h]
    exact ⟨he.1, fun _ => by simpa using hfid⟩

/-- The slot-related facts of an arena entry fetched with a default:
out-of-range handles yield the default record, whose slots are both
unset. -/
lemma arena_getD_slot_lt {F : ℕ} {arena : List REdge}
    (h3 : ∀ e ∈ arena, (0 ≤ e.f1 → e.f1.toNat < F) ∧ (0 ≤ e.f2 → e.f2.toNat < F))
    (h : ℕ) :
    (0 ≤ (arena.getD h default).f1 → (arena.getD h default).f1.toNat < F) ∧
    (0 ≤ (arena.getD h default).f2 → (arena.getD h default).f2.toNat < F) := by
  by_cases hh : h < arena.length
  · apply h3
    rw [List.getD_eq_getElem?_getD, List.getElem?_eq_getElem hh]
    exact List.getElem_mem hh
  · rw [List.getD_eq_getElem?_getD, List.getElem?_eq_none (by omega)]
    constructor
    · intro hc; cases hc
    · intro hc; cases hc

lemma addFaceEdge_inv {V F : ℕ} {st : EMState} {pv1 pv2 fid : ℕ}
    {ty : EType} {len : ℚ} (hinv : EMInv V F st) (h1 : pv1 < V)
    (h2 : pv2 < V) (hfid : fid < F) :
    EMInv V F (addFaceEdge st pv1 pv2 fid ty len) := by
  obtain ⟨hh, hs, hb, hm⟩ := hinv
  cases hf : assocFind (ekey pv1 pv2) st.map with
  | some h =>
      rw [addFaceEdge_found hf]
      refine ⟨?_, ?_, ?_, ?_⟩
      · intro a ha
        simp only [List.length_set]
        exact hh a ha
      · intro e he
        rcases List.mem_or_eq_of_mem_set he with he' | rfl
        · exact hs e he'
        · exact REdge.addFace_slot_or _ _ _ _ _
      · intro e he
        rcases List.mem_or_eq_of_mem_set he with he' | rfl
        · exact hb e he'
        · exact REdge.addFace_slot_lt _ _ _ _ _ hfid (arena_getD_slot_lt hb h)
      · intro pr hpr
        obtain ⟨ha, hb', hc⟩ := hm pr hpr
        exact ⟨by simpa using ha, hb', hc⟩
  | none =>
      rw [addFaceEdge_fresh hf]
      refine ⟨?_, ?_, ?_, ?_⟩
      · intro a ha
        have := pushHeap_subset _ _ a ha
        rcases List.mem_append.mp this with h' | h'
        · have := hh a h'
          simp only [List.length_append, List.length_singleton]
          omega
        · rcases List.mem_singleton.mp h' with rfl
          simp
      · intro e he
        rcases List.mem_append.mp he with h' | h'
        · exact hs e h'
        · rcases List.mem_singleton.mp h' with rfl
          exact REdge.addFace_slot_or _ _ _ _ _
      · intro e he
        rcases List.mem_append.mp he with h' | h'
        · exact hb e h'
        · rcases List.mem_singleton.mp h' with rfl
          refine REdge.addFace_slot_lt _ _ _ _ _ hfid ?_
          constructor
          · intro hc; cases hc
          · intro hc; cases hc
      · intro pr hpr
        rcases List.mem_append.mp hpr with h' | h'
        · obtain ⟨ha, hb', hc⟩ := hm pr h'
          refine ⟨?_, hb', hc⟩
          simp only [List.length_append, List.length_singleton]
          omega
        · rcases List.mem_singleton.mp h' with rfl
          refine ⟨by simp, ?_, ?_⟩
          · rcases ekey_v1_cases pv1 pv2 with h' | h' <;> rw [h']
            · exact h1
            · exact h2
          · rcases ekey_v2_cases pv1 pv2 with h' | h' <;> rw [h']
            · exact h1
            · exact h2

lemma addFaceEdges_inv {V F : ℕ} {m : Mesh} {fid : ℕ} {st : EMState}
    (hinv : EMInv V F st)
    (hface : (m.faces.getD fid default).a < V ∧
      (m.faces.getD fid default).b < V ∧ (m.faces.getD fid default).c < V)
    (hfid : fid < F) :
    EMInv V F (addFaceEdges m fid st) := by
  rw [addFaceEdges]
  exact addFaceEdge_inv
    (addFaceEdge_inv (addFaceEdge_inv hinv hface.1 hface.2.1 hfid)
      hface.2.1 hface.2.2 hfid)
    hface.2.2 hface.1 hfid

/-! ### Freshness of midpoint keys: each split pushes a new edge -/

lemma getD_mem {α : Type} {l : List α} {j : ℕ} (hj : j < l.length) (d : α) :
    l.getD j d ∈ l := by
  rw [List.getD_eq_getElem?_getD, List.getElem?_eq_getElem hj]
  exact List.getElem_mem hj

lemma getD_set_self {α : Type} (l : List α) (i : ℕ) (a d : α)
    (h : i < l.length) : (l.set i a).getD i d = a := by
  induction l generalizing i with
  | nil => cases h
  | cons x t ih =>
      cases i with
      | zero => rfl
      | succ i => exact ih i (by simpa using h)

lemma assocFind_some_mem {α β : Type} [DecidableEq α] {k : α}
    {l : List (α × β)} {v : β} (h : assocFind k l = some v) : (k, v) ∈ l := by
  induction l with
  | nil => cases h
  | cons e t ih =>
      rw [← e.eta] at h ⊢
      by_cases he : e.1 = k
      · rw [assocFind, if_pos he] at h
        cases h
        rw [he]
        exact List.mem_cons_self _ _
      · rw [assocFind, if_neg he] at h
        exact List.mem_cons_of_mem _ (ih h)

lemma ekey_contains_fst (a b : ℕ) : (ekey a b).v1 = a ∨ (ekey a b).v2 = a := by
  rw [ekey]
  rcases le_total a b with h | h
  · left; simp [min_eq_left h]
  · right; simp [max_eq_left h]

lemma assocFind_none_of_noVid {vid : ℕ} {mp : List (EdgeKey × ℕ)}
    (h : noVid vid mp) {k : EdgeKey} (hk : k.v1 = vid ∨ k.v2 = vid) :
    assocFind k mp = none := by
  cases hx : assocFind k mp with
  | none => rfl
  | some v =>
      have hmem := assocFind_some_mem hx
      have := h _ hmem
      rcases hk with hk | hk
      · exact absurd hk this.1
      · exact absurd hk this.2

lemma addFaceEdge_noVid {vid : ℕ} {st : EMState} {pv1 pv2 fid : ℕ}
    {ty : EType} {len : ℚ} (h : noVid vid st.map) (h1 : pv1 ≠ vid)
    (h2 : pv2 ≠ vid) :
    noVid vid (addFaceEdge st pv1 pv2 fid ty len).map := by
  cases hf : assocFind (ekey pv1 pv2) st.map with
  | some hh => rw [addFaceEdge_found hf]; exact h
  | none =>
      rw [addFaceEdge_fresh hf]
      intro pr hpr
      rcases List.mem_append.mp hpr with h' | h'
      · exact h pr h'
      · rcases List.mem_singleton.mp h' with rfl
        constructor
        · rcases ekey_v1_cases pv1 pv2 with hv | hv <;> rw [hv]
          · exact h1
          · exact h2
        · rcases ekey_v2_cases pv1 pv2 with hv | hv <;> rw [hv]
          · exact h1
          · exact h2

lemma addFaceEdge_push_vid {vid : ℕ} {st : EMState} {pv1 pv2 fid : ℕ}
    {ty : EType} {len : ℚ} (h : noVid vid st.map)
    (hv : pv1 = vid ∨ pv2 = vid) :
    (addFaceEdge st pv1 pv2 fid ty len).heap.length = st.heap.length + 1 := by
  apply addFaceEdge_heap_fresh
  apply assocFind_none_of_noVid h
  rcases hv with rfl | rfl
  · rcases ekey_contains_fst pv1 pv2 with h' | h'
    · exact Or.inl h'
    · exact Or.inr h'
  · rcases ekey_contains_snd pv1 pv2 with h' | h'
    · exact Or.inl h'
    · exact Or.inr h'

/-- When the face registered by `addFaceEdges` has the fresh midpoint
vertex as a corner (and no earlier corner equals it), a brand-new edge
is pushed onto the heap. -/
lemma addFaceEdges_push {m : Mesh} {fid : ℕ} {st : EMState} {vid : ℕ}
    (hnv : noVid vid st.map)
    (hc : (m.faces.getD fid default).a = vid ∨
      (m.faces.getD fid default).b = vid ∨
      ((m.faces.getD fid default).c = vid ∧
        (m.faces.getD fid default).a ≠ vid ∧
        (m.faces.getD fid default).b ≠ vid)) :
    st.heap.length + 1 ≤ (addFaceEdges m fid st).heap.length := by
  simp only [addFaceEdges]
  set g := m.faces.getD fid default with hg
  set l1 := sqDist (m.vertices.getD g.a default) (m.vertices.getD g.b default)
    with hl1
  set l2 := sqDist (m.vertices.getD g.b default) (m.vertices.getD g.c default)
    with hl2
  set l3 := sqDist (m.vertices.getD g.c default) (m.vertices.getD g.a default)
    with hl3
  set st1 := addFaceEdge st g.a g.b fid EType.AB l1 with hst1
  set st2 := addFaceEdge st1 g.b g.c fid EType.BC l2 with hst2
  have h3 := addFaceEdge_heap_ge st2 g.c g.a fid EType.CA l3
  rcases hc with hc | hc | ⟨hc, hna, hnb⟩
  · have h1 : st1.heap.length = st.heap.length + 1 := by
      rw [hst1]
      exact addFaceEdge_push_vid hnv (Or.inl hc)
    have h2 : st1.heap.length ≤ st2.heap.length := by
      rw [hst2]
      exact addFaceEdge_heap_ge st1 g.b g.c fid EType.BC l2
    omega
  · have h1 : st1.heap.length = st.heap.length + 1 := by
      rw [hst1]
      exact addFaceEdge_push_vid hnv (Or.inr hc)
    have h2 : st1.heap.length ≤ st2.heap.length := by
      rw [hst2]
      exact addFaceEdge_heap_ge st1 g.b g.c fid EType.BC l2
    omega
  · have h1 : st.heap.length ≤ st1.heap.length := by
      rw [hst1]
      exact addFaceEdge_heap_ge st g.a g.b fid EType.AB l1
    have hnv1 : noVid vid st1.map := by
      rw [hst1]
      exact addFaceEdge_noVid hnv hna hnb
    have h2 : st2.heap.length = st1.heap.length + 1 := by
      rw [hst2]
      exact addFaceEdge_push_vid hnv1 (Or.inr hc)
    omega

lemma addFaceEdges_push_set {verts : List V3} {tc : List V2}
    {faces0 : List Face} {nf mface : Face} {fid : ℕ} {st : EMState} {vid : ℕ}
    (hnv : noVid vid st.map) (hfid : fid < faces0.length + 1)
    (hc : mface.a = vid ∨ mface.b = vid ∨
      (mface.c = vid ∧ mface.a ≠ vid ∧ mface.b ≠ vid)) :
    st.heap.length + 1
      ≤ (addFaceEdges ⟨verts, tc, (faces0 ++ [nf]).set fid mface⟩ fid st).heap.length := by
  apply addFaceEdges_push hnv
  have hg : ((faces0 ++ [nf]).set fid mface)[fid]?.getD default = mface := by
    rw [← List.getD_eq_getElem?_getD]
    exact getD_set_self _ _ _ _
      (by simp only [List.length_append, List.length_singleton]; omega)
  simpa [hg] using hc

/-- Splitting a face whose far corner has been replaced by the fresh
midpoint vertex always pushes at least one brand-new edge. -/
lemma splitEdge_push {s : RState} {fid : ℕ} {ty : EType} {vid : ℕ}
    (hnv : noVid vid s.em.map) (hfid : fid < s.mesh.faces.length + 1)
    (hcorner : (s.mesh.faces.getD fid default).a ≠ vid ∧
      (s.mesh.faces.getD fid default).b ≠ vid ∧
      (s.mesh.faces.getD fid default).c ≠ vid) :
    s.em.heap.length + 1 ≤ (splitEdge s fid ty vid).em.heap.length := by
  cases ty
  case AB =>
    refine le_trans ?_ (addFaceEdges_heap_ge _ _ _)
    exact addFaceEdges_push_set hnv hfid (Or.inr (Or.inl rfl))
  case BC =>
    refine le_trans ?_ (addFaceEdges_heap_ge _ _ _)
    exact addFaceEdges_push_set hnv hfid
      (Or.inr (Or.inr ⟨rfl, hcorner.1, hcorner.2.1⟩))
  case CA =>
    refine le_trans ?_ (addFaceEdges_heap_ge _ _ _)
    exact addFaceEdges_push_set hnv hfid (Or.inl rfl)

lemma popTopEdge_EMInv {V F : ℕ} {st : EMState} (h : EMInv V F st) :
    EMInv V F (popTopEdge st).2 := by
  obtain ⟨h1, h2, h3, h4⟩ := h
  refine ⟨?_, ?_, ?_, ?_⟩
  · intro a ha
    rw [popTopEdge_arena]
    exact h1 a (popTopEdge_heap_subset st a ha)
  · intro e he
    rw [popTopEdge_arena] at he
    exact h2 e he
  · intro e he
    rw [popTopEdge_arena] at he
    exact h3 e he
  · intro pr hpr
    have := h4 pr (popTopEdge_map_subset st pr hpr)
    rw [popTopEdge_arena]
    exact this

lemma popTopEdge_fst_nil {st : EMState} (h : st.heap = []) :
    (popTopEdge st).1 = default := by
  obtain ⟨ar, mp, hp⟩ := st
  cases hp with
  | nil => rfl
  | cons h0 t => cases h

lemma splitCore_faces {m : Mesh} {nf mface : Face} {fid : ℕ}
    (hfc : ∀ f ∈ m.faces, f.a < m.vertices.length ∧ f.b < m.vertices.length ∧
      f.c < m.vertices.length)
    (hnf : nf.a < m.vertices.length ∧ nf.b < m.vertices.length ∧
      nf.c < m.vertices.length)
    (hmface : mface.a < m.vertices.length ∧ mface.b < m.vertices.length ∧
      mface.c < m.vertices.length) :
    ∀ f ∈ (m.faces ++ [nf]).set fid mface,
      f.a < m.vertices.length ∧ f.b < m.vertices.length ∧
      f.c < m.vertices.length := by
  intro f hf
  rcases List.mem_or_eq_of_mem_set hf with hf' | rfl
  · rcases List.mem_append.mp hf' with hf'' | hf''
    · exact hfc f hf''
    · rcases List.mem_singleton.mp hf'' with rfl
      exact hnf
  · exact hmface

lemma splitCore_EMInv {m : Mesh} {tc : List V2} {nf mface : Face} {fid : ℕ}
    {st : EMState}
    (hem : EMInv m.vertices.length m.faces.length st)
    (hfc : ∀ f ∈ m.faces, f.a < m.vertices.length ∧ f.b < m.vertices.length ∧
      f.c < m.vertices.length)
    (hnf : nf.a < m.vertices.length ∧ nf.b < m.vertices.length ∧
      nf.c < m.vertices.length)
    (hmface : mface.a < m.vertices.length ∧ mface.b < m.vertices.length ∧
      mface.c < m.vertices.length)
    (hfid : fid < m.faces.length + 1) :
    EMInv m.vertices.length ((m.faces ++ [nf]).set fid mface).length
      (addFaceEdges ⟨m.vertices, tc, (m.faces ++ [nf]).set fid mface⟩
        (((m.faces ++ [nf]).set fid mface).length - 1)
        (addFaceEdges ⟨m.vertices, tc, (m.faces ++ [nf]).set fid mface⟩ fid st)) := by
  have hF : ((m.faces ++ [nf]).set fid mface).length = m.faces.length + 1 := by
    simp
  have hfaces1 := @splitCore_faces m nf mface fid hfc hnf hmface
  have hV : 0 < m.vertices.length := by omega
  have hgetD : ∀ fid2 : ℕ,
      ((⟨m.vertices, tc, (m.faces ++ [nf]).set fid mface⟩ : Mesh).faces.getD
          fid2 default).a < m.vertices.length ∧
      ((⟨m.vertices, tc, (m.faces ++ [nf]).set fid mface⟩ : Mesh).faces.getD
          fid2 default).b < m.vertices.length ∧
      ((⟨m.vertices, tc, (m.faces ++ [nf]).set fid mface⟩ : Mesh).faces.getD
          fid2 default).c < m.vertices.length := by
    intro fid2
    by_cases hlt : fid2 < ((m.faces ++ [nf]).set fid mface).length
    · exact hfaces1 _ (getD_mem hlt default)
    · show ((((m.faces ++ [nf]).set fid mface).getD fid2 default).a
          < m.vertices.length) ∧ _
      rw [List.getD_eq_getElem?_getD, List.getElem?_eq_none (by omega)]
      exact ⟨hV, hV, hV⟩
  have hem1 : EMInv m.vertices.length ((m.faces ++ [nf]).set fid mface).length st :=
    hem.mono le_rfl (by omega)
  exact addFaceEdges_inv (addFaceEdges_inv hem1 (hgetD fid) (by omega))
    (hgetD _) (by omega)

lemma splitEdge_inv {s : RState} {fid : ℕ} {ty : EType} {vid : ℕ}
    (hinv : RInv s) (hvid : vid < s.mesh.vertices.length)
    (hfid : fid < s.mesh.faces.length + 1) :
    RInv (splitEdge s fid ty vid) := by
  obtain ⟨hem, hfc⟩ := hinv
  have hV : 0 < s.mesh.vertices.length := by omega
  have hf : (s.mesh.faces.getD fid default).a < s.mesh.vertices.length ∧
      (s.mesh.faces.getD fid default).b < s.mesh.vertices.length ∧
      (s.mesh.faces.getD fid default).c < s.mesh.vertices.length := by
    by_cases hlt : fid < s.mesh.faces.length
    · exact hfc _ (getD_mem hlt default)
    · rw [List.getD_eq_getElem?_getD, List.getElem?_eq_none (by omega)]
      exact ⟨hV, hV, hV⟩
  cases ty
  case AB =>
    refine ⟨splitCore_EMInv hem hfc ?_ ?_ hfid, splitCore_faces hfc ?_ ?_⟩
    · exact ⟨hf.2.1, hf.2.2, hvid⟩
    · exact ⟨hf.1, hvid, hf.2.2⟩
    · exact ⟨hf.2.1, hf.2.2, hvid⟩
    · exact ⟨hf.1, hvid, hf.2.2⟩
  case BC =>
    refine ⟨splitCore_EMInv hem hfc ?_ ?_ hfid, splitCore_faces hfc ?_ ?_⟩
    · exact ⟨hf.2.2, hf.1, hvid⟩
    · exact ⟨hf.1, hf.2.1, hvid⟩
    · exact ⟨hf.2.2, hf.1, hvid⟩
    · exact ⟨hf.1, hf.2.1, hvid⟩
  case CA =>
    refine ⟨splitCore_EMInv hem hfc ?_ ?_ hfid, splitCore_faces hfc ?_ ?_⟩
    · exact ⟨hf.1, hf.2.1, hvid⟩
    · exact ⟨hvid, hf.2.1, hf.2.2⟩
    · exact ⟨hf.1, hf.2.1, hvid⟩
    · exact ⟨hvid, hf.2.1, hf.2.2⟩

lemma refinePre_inv {s : RState} (hinv : RInv s) : RInv (refinePre s) := by
  obtain ⟨hem, hfc⟩ := hinv
  constructor
  · have h1 := popTopEdge_EMInv hem
    have h2 := h1.mono (Nat.le_succ s.mesh.vertices.length) le_rfl
    have hV : (refinePre s).mesh.vertices.length = s.mesh.vertices.length + 1 :=
      refinePre_vertices_length s
    rw [hV, refinePre_faces, refinePre_em]
    exact h2
  · intro f hf
    rw [refinePre_faces] at hf
    have := hfc f hf
    rw [refinePre_vertices_length]
    omega

lemma refineStep_inv {s : RState} (hinv : RInv s) : RInv (refineStep s) := by
  have hpre : RInv (refinePre s) := refinePre_inv hinv
  obtain ⟨hem, hfc⟩ := hinv
  rw [refineStep]
  have hvidlt : (refinePre s).mesh.vertices.length - 1
      < (refinePre s).mesh.vertices.length := by
    rw [refinePre_vertices_length]
    omega
  by_cases hheap : s.em.heap = []
  · have he' : (popTopEdge s.em).1 = default := popTopEdge_fst_nil hheap
    have hd1 : ¬ (0 : ℤ) ≤ (default : REdge).f1 := by decide
    have hd2 : ¬ (0 : ℤ) ≤ (default : REdge).f2 := by decide
    rw [refineSplits, he', if_neg hd1, if_neg hd2]
    exact hpre
  · obtain ⟨h0, hh0, hedef⟩ := popTopEdge_fst hheap
    have hemem : s.em.arena.getD h0 default ∈ s.em.arena :=
      getD_mem (hem.1 h0 hh0) _
    have hsb' := hem.2.2.1 _ hemem
    have hF1 : 0 ≤ (popTopEdge s.em).1.f1 →
        (popTopEdge s.em).1.f1.toNat < s.mesh.faces.length := by
      rw [hedef]; exact hsb'.1
    have hF2 : 0 ≤ (popTopEdge s.em).1.f2 →
        (popTopEdge s.em).1.f2.toNat < s.mesh.faces.length := by
      rw [hedef]; exact hsb'.2
    rw [refineSplits]
    by_cases h1 : (0 : ℤ) ≤ (popTopEdge s.em).1.f1
    · rw [if_pos h1]
      have hfid1 : (popTopEdge s.em).1.f1.toNat
          < (refinePre s).mesh.faces.length + 1 := by
        rw [refinePre_faces]
        have := hF1 h1
        omega
      have hs2 : RInv (splitEdge (refinePre s) (popTopEdge s.em).1.f1.toNat
          (popTopEdge s.em).1.et1 ((refinePre s).mesh.vertices.length - 1)) :=
        splitEdge_inv hpre hvidlt hfid1
      by_cases h2 : (0 : ℤ) ≤ (popTopEdge s.em).1.f2
      · rw [if_pos h2]
        apply splitEdge_inv hs2
        · rw [splitEdge_vertices]
          exact hvidlt
        · rw [splitEdge_faces_length, refinePre_faces]
          have := hF2 h2
          omega
      · rw [if_neg h2]
        exact hs2
    · rw [if_neg h1]
      by_cases h2 : (0 : ℤ) ≤ (popTopEdge s.em).1.f2
      · rw [if_pos h2]
        apply splitEdge_inv hpre hvidlt
        rw [refinePre_faces]
        have := hF2 h2
        omega
      · rw [if_neg h2]
        exact hpre

/-- Under the reachable-state invariant the heap never shrinks across
a loop iteration: the pop removes one entry, but the first face split
always pushes at least one brand-new midpoint edge. -/
lemma refineStep_heap_ge {s : RState} (hinv : RInv s)
    (hpos : 0 < s.em.heap.length) :
    s.em.heap.length ≤ (refineStep s).em.heap.length := by
  obtain ⟨hem, hfc⟩ := hinv
  have hne : s.em.heap ≠ [] := by
    intro h; rw [h] at hpos; cases hpos
  obtain ⟨h0, hh0, hedef⟩ := popTopEdge_fst hne
  have hemem : s.em.arena.getD h0 default ∈ s.em.arena :=
    getD_mem (hem.1 h0 hh0) _
  rw [refineStep]
  have hslot : 0 ≤ (popTopEdge s.em).1.f1 ∨ 0 ≤ (popTopEdge s.em).1.f2 := by
    rw [hedef]; exact hem.2.1 _ hemem
  have hsb' := hem.2.2.1 _ hemem
  have hF1 : 0 ≤ (popTopEdge s.em).1.f1 →
      (popTopEdge s.em).1.f1.toNat < s.mesh.faces.length := by
    rw [hedef]; exact hsb'.1
  have hF2 : 0 ≤ (popTopEdge s.em).1.f2 →
      (popTopEdge s.em).1.f2.toNat < s.mesh.faces.length := by
    rw [hedef]; exact hsb'.2
  have hvidval : (refinePre s).mesh.vertices.length - 1
      = s.mesh.vertices.length := by
    rw [refinePre_vertices_length]
    omega
  have hnv : noVid ((refinePre s).mesh.vertices.length - 1)
      (refinePre s).em.map := by
    intro pr hpr
    rw [refinePre_em] at hpr
    have hb := hem.2.2.2 pr (popTopEdge_map_subset _ pr hpr)
    rw [hvidval]
    exact ⟨Nat.ne_of_lt hb.2.1, Nat.ne_of_lt hb.2.2⟩
  have hpreh : (refinePre s).em.heap.length = s.em.heap.length - 1 := by
    rw [refinePre_em]
    exact popTopEdge_heap_length hne
  have hcor : ∀ fid2 : ℕ, fid2 < s.mesh.faces.length →
      ((refinePre s).mesh.faces.getD fid2 default).a
        ≠ (refinePre s).mesh.vertices.length - 1 ∧
      ((refinePre s).mesh.faces.getD fid2 default).b
        ≠ (refinePre s).mesh.vertices.length - 1 ∧
      ((refinePre s).mesh.faces.getD fid2 default).c
        ≠ (refinePre s).mesh.vertices.length - 1 := by
    intro fid2 hlt
    rw [refinePre_faces]
    have hb := hfc _ (getD_mem hlt default)
    rw [hvidval]
    exact ⟨Nat.ne_of_lt hb.1, Nat.ne_of_lt hb.2.1, Nat.ne_of_lt hb.2.2⟩
  rw [refineSplits]
  by_cases h1 : (0 : ℤ) ≤ (popTopEdge s.em).1.f1
  · rw [if_pos h1]
    have hfid1 := hF1 h1
    have hpush : (refinePre s).em.heap.length + 1
        ≤ (splitEdge (refinePre s) (popTopEdge s.em).1.f1.toNat
            (popTopEdge s.em).1.et1
            ((refinePre s).mesh.vertices.length - 1)).em.heap.length :=
      splitEdge_push hnv (by rw [refinePre_faces]; omega) (hcor _ hfid1)
    by_cases h2 : (0 : ℤ) ≤ (popTopEdge s.em).1.f2
    · rw [if_pos h2]
      have hmono := splitEdge_heap_ge
        (splitEdge (refinePre s) (popTopEdge s.em).1.f1.toNat
          (popTopEdge s.em).1.et1 ((refinePre s).mesh.vertices.length - 1))
        (popTopEdge s.em).1.f2.toNat (popTopEdge s.em).1.et2
        ((refinePre s).mesh.vertices.length - 1)
      omega
    · rw [if_neg h2]
      omega
  · rw [if_neg h1]
    have h2 : (0 : ℤ) ≤ (popTopEdge s.em).1.f2 := by
      rcases hslot with h | h
      · exact absurd h h1
      · exact h
    rw [if_pos h2]
    have hfid2 := hF2 h2
    have hpush : (refinePre s).em.heap.length + 1
        ≤ (splitEdge (refinePre s) (popTopEdge s.em).1.f2.toNat
            (popTopEdge s.em).1.et2
            ((refinePre s).mesh.vertices.length - 1)).em.heap.length :=
      splitEdge_push hnv (by rw [refinePre_faces]; omega) (hcor _ hfid2)
    omega

/-! ### Texture-index invariant preservation -/

lemma splitCore_texinv {tc : List V2} {faces0 : List Face} {nf mface : Face}
    {fid : ℕ}
    (hold : tc ≠ [] → ∀ f ∈ faces0, f.ta < tc.length ∧ f.tb < tc.length ∧
      f.tc < tc.length)
    (hnf : tc ≠ [] → nf.ta < tc.length ∧ nf.tb < tc.length ∧ nf.tc < tc.length)
    (hmface : tc ≠ [] → mface.ta < tc.length ∧ mface.tb < tc.length ∧
      mface.tc < tc.length) :
    tc ≠ [] → ∀ f ∈ (faces0 ++ [nf]).set fid mface,
      f.ta < tc.length ∧ f.tb < tc.length ∧ f.tc < tc.length := by
  intro htc f hf
  rcases List.mem_or_eq_of_mem_set hf with hf' | rfl
  · rcases List.mem_append.mp hf' with hf'' | hf''
    · exact hold htc f hf''
    · rcases List.mem_singleton.mp hf'' with rfl
      exact hnf htc
  · exact hmface htc

lemma splitEdge_texinv {s : RState} {fid : ℕ} {ty : EType} {vid : ℕ}
    (h : TexInv s) : TexInv (splitEdge s fid ty vid) := by
  have hgetD : s.mesh.tCoords ≠ [] →
      (s.mesh.faces.getD fid default).ta < s.mesh.tCoords.length ∧
      (s.mesh.faces.getD fid default).tb < s.mesh.tCoords.length ∧
      (s.mesh.faces.getD fid default).tc < s.mesh.tCoords.length := by
    intro htc
    have hT : 0 < s.mesh.tCoords.length := List.length_pos.mpr htc
    by_cases hlt : fid < s.mesh.faces.length
    · exact h htc _ (getD_mem hlt default)
    · rw [List.getD_eq_getElem?_getD, List.getElem?_eq_none (by omega)]
      exact ⟨hT, hT, hT⟩
  by_cases h0 : 0 < s.mesh.tCoords.length
  · have hne : s.mesh.tCoords ≠ [] := List.length_pos.mp h0
    have hb := hgetD hne
    cases ty
    all_goals
      apply splitCore_texinv
      · intro htc f hf
        have := h hne f hf
        simp only [splitEdge, h0, if_true, List.length_append,
          List.length_singleton]
        omega
      · intro htc
        simp only [splitEdge, h0, if_true, List.length_append,
          List.length_singleton]
        omega
      · intro htc
        simp only [splitEdge, h0, if_true, List.length_append,
          List.length_singleton]
        omega
  · have hnil : s.mesh.tCoords = [] := List.length_eq_zero.mp (by omega)
    cases ty
    all_goals
      apply splitCore_texinv
      all_goals
        intro htc
        simp only [splitEdge, h0, if_false] at htc
        exact absurd hnil htc

lemma refineStep_texinv {s : RState} (h : TexInv s) : TexInv (refineStep s) := by
  have hpre : TexInv (refinePre s) := by
    intro htc f hf
    rw [refinePre_tCoords] at htc ⊢
    rw [refinePre_faces] at hf
    exact h htc f hf
  rw [refineStep, refineSplits]
  by_cases h1 : (0 : ℤ) ≤ (popTopEdge s.em).1.f1
  · rw [if_pos h1]
    by_cases h2 : (0 : ℤ) ≤ (popTopEdge s.em).1.f2
    · rw [if_pos h2]
      exact splitEdge_texinv (splitEdge_texinv hpre)
    · rw [if_neg h2]
      exact splitEdge_texinv hpre
  · rw [if_neg h1]
    by_cases h2 : (0 : ℤ) ≤ (popTopEdge s.em).1.f2
    · rw [if_pos h2]
      exact splitEdge_texinv hpre
    · rw [if_neg h2]
      exact hpre

/-! ### The main loop and initialisation -/

lemma refineLoop_exit (maxN : ℕ) :
    ∀ (fuel : ℕ) (s : RState), refineMeasure maxN s ≤ fuel →
      ¬ refineCond maxN (refineLoop maxN fuel s) := by
  intro fuel
  induction fuel with
  | zero =>
      intro s hle hc
      obtain ⟨-, hheap⟩ := hc
      rw [refineMeasure] at hle
      have : s.em.heap.length = 0 := by omega
      rw [refineLoop] at hheap
      omega
  | succ fuel ih =>
      intro s hle
      rw [refineLoop]
      by_cases hc : refineCond maxN s
      · rw [if_pos hc]
        exact ih _ (by have := refineStep_measure hc; omega)
      · rw [if_neg hc]
        exact hc

lemma refineLoop_inv (maxN : ℕ) :
    ∀ (fuel : ℕ) (s : RState), RInv s → RInv (refineLoop maxN fuel s) := by
  intro fuel
  induction fuel with
  | zero => intro s h; exact h
  | succ fuel ih =>
      intro s h
      rw [refineLoop]
      by_cases hc : refineCond maxN s
      · rw [if_pos hc]
        exact ih _ (refineStep_inv h)
      · rw [if_neg hc]
        exact h

lemma refineLoop_texinv (maxN : ℕ) :
    ∀ (fuel : ℕ) (s : RState), TexInv s → TexInv (refineLoop maxN fuel s) := by
  intro fuel
  induction fuel with
  | zero => intro s h; exact h
  | succ fuel ih =>
      intro s h
      rw [refineLoop]
      by_cases hc : refineCond maxN s
      · rw [if_pos hc]
        exact ih _ (refineStep_texinv h)
      · rw [if_neg hc]
        exact h

lemma refineLoop_faces_ge (maxN : ℕ) :
    ∀ (fuel : ℕ) (s : RState),
      s.mesh.faces.length ≤ (refineLoop maxN fuel s).mesh.faces.length := by
  intro fuel
  induction fuel with
  | zero => intro s; exact le_rfl
  | succ fuel ih =>
      intro s
      rw [refineLoop]
      by_cases hc : refineCond maxN s
      · rw [if_pos hc]
        exact le_trans (refineStep_faces_ge s) (ih _)
      · rw [if_neg hc]

lemma refineLoop_vsteps (maxN : ℕ) :
    ∀ (fuel : ℕ) (s : RState),
      (refineLoop maxN fuel s).mesh.vertices.length + s.steps
        = s.mesh.vertices.length + (refineLoop maxN fuel s).steps := by
  intro fuel
  induction fuel with
  | zero => intro s; rw [refineLoop]
  | succ fuel ih =>
      intro s
      rw [refineLoop]
      by_cases hc : refineCond maxN s
      · rw [if_pos hc]
        have h1 := ih (refineStep s)
        have h2 := refineStep_vertices s
        have h3 := refineStep_steps s
        omega
      · rw [if_neg hc]

lemma refineLoop_heap_pos (maxN : ℕ) :
    ∀ (fuel : ℕ) (s : RState), RInv s → 0 < s.em.heap.length →
      0 < (refineLoop maxN fuel s).em.heap.length := by
  intro fuel
  induction fuel with
  | zero => intro s _ h; exact h
  | succ fuel ih =>
      intro s hinv hpos
      rw [refineLoop]
      by_cases hc : refineCond maxN s
      · rw [if_pos hc]
        refine ih _ (refineStep_inv hinv) ?_
        have := refineStep_heap_ge hinv hpos
        omega
      · rw [if_neg hc]
        exact hpos

lemma emptyEM_inv (V F : ℕ) : EMInv V F emptyEM :=
  ⟨fun _ h => absurd h (List.not_mem_nil _),
   fun _ h => absurd h (List.not_mem_nil _),
   fun _ h => absurd h (List.not_mem_nil _),
   fun _ h => absurd h (List.not_mem_nil _)⟩

lemma foldl_addFaceEdges_inv {V F : ℕ} {m : Mesh}
    (hfc : ∀ f ∈ m.faces, f.a < V ∧ f.b < V ∧ f.c < V) (hVm : V = m.vertices.length) :
    ∀ (l : List ℕ) (st : EMState), (∀ i ∈ l, i < F) → (F ≤ m.faces.length) →
      EMInv V F st →
      EMInv V F (l.foldl (fun st i => addFaceEdges m i st) st) := by
  intro l
  induction l with
  | nil => intro st _ _ h; exact h
  | cons i t ih =>
      intro st hl hF h
      rw [List.foldl_cons]
      refine ih _ (fun j hj => hl j (List.mem_cons_of_mem _ hj)) hF ?_
      have hi : i < F := hl i (List.mem_cons_self _ _)
      refine addFaceEdges_inv h ?_ hi
      have hlt : i < m.faces.length := by omega
      exact hfc _ (getD_mem hlt default)

lemma refineInit_EMInv {m : Mesh}
    (hfc : ∀ f ∈ m.faces, f.a < m.vertices.length ∧ f.b < m.vertices.length ∧
      f.c < m.vertices.length) :
    EMInv m.vertices.length m.faces.length (refineInit m) := by
  rw [refineInit]
  exact foldl_addFaceEdges_inv hfc rfl _ emptyEM
    (fun i hi => List.mem_range.mp hi) le_rfl (emptyEM_inv _ _)

lemma addFaceEdges_heap_pos_of_empty_map {m : Mesh} {fid : ℕ} {st : EMState}
    (h : st.map = []) : 0 < (addFaceEdges m fid st).heap.length := by
  rw [addFaceEdges]
  have hfind : assocFind (ekey (m.faces.getD fid default).a
      (m.faces.getD fid default).b) st.map = none := by
    rw [h]; rfl
  have h1 := @addFaceEdge_heap_fresh st (m.faces.getD fid default).a
    (m.faces.getD fid default).b fid EType.AB
    (sqDist (m.vertices.getD (m.faces.getD fid default).a default)
      (m.vertices.getD (m.faces.getD fid default).b default)) hfind
  have h2 := addFaceEdge_heap_ge (addFaceEdge st (m.faces.getD fid default).a
      (m.faces.getD fid default).b fid EType.AB
      (sqDist (m.vertices.getD (m.faces.getD fid default).a default)
        (m.vertices.getD (m.faces.getD fid default).b default)))
    (m.faces.getD fid default).b (m.faces.getD fid default).c fid EType.BC
    (sqDist (m.vertices.getD (m.faces.getD fid default).b default)
      (m.vertices.getD (m.faces.getD fid default).c default))
  have h3 := addFaceEdge_heap_ge (addFaceEdge (addFaceEdge st
      (m.faces.getD fid default).a (m.faces.getD fid default).b fid EType.AB
      (sqDist (m.vertices.getD (m.faces.getD fid default).a default)
        (m.vertices.getD (m.faces.getD fid default).b default)))
      (m.faces.getD fid default).b (m.faces.getD fid default).c fid EType.BC
      (sqDist (m.vertices.getD (m.faces.getD fid default).b default)
        (m.vertices.getD (m.faces.getD fid default).c default)))
    (m.faces.getD fid default).c (m.faces.getD fid default).a fid EType.CA
    (sqDist (m.vertices.getD (m.faces.getD fid default).c default)
      (m.vertices.getD (m.faces.getD fid default).a default))
  omega

lemma foldl_addFaceEdges_heap_ge (m : Mesh) :
    ∀ (l : List ℕ) (st : EMState),
      st.heap.length ≤ (l.foldl (fun st i => addFaceEdges m i st) st).heap.length := by
  intro l
  induction l with
  | nil => intro st; exact le_rfl
  | cons i t ih =>
      intro st
      rw [List.foldl_cons]
      exact le_trans (addFaceEdges_heap_ge m i st) (ih _)

lemma refineInit_heap_pos {m : Mesh} (hne : m.faces ≠ []) :
    0 < (refineInit m).heap.length := by
  rw [refineInit]
  have hk : ∃ k, m.faces.length = k + 1 := by
    cases hf : m.faces with
    | nil => exact absurd hf hne
    | cons f t => exact ⟨t.length, by simp⟩
  obtain ⟨k, hk⟩ := hk
  rw [hk, List.range_succ_eq_map, List.foldl_cons]
  refine lt_of_lt_of_le ?_ (foldl_addFaceEdges_heap_ge m _ _)
  exact addFaceEdges_heap_pos_of_empty_map rfl

/-! ### Results about a whole `refine` run -/

lemma refineState_exit (m : Mesh) (maxN : ℕ) :
    ¬ refineCond maxN (refineState m maxN) := by
  rw [refineState]
  exact refineLoop_exit maxN _ _ (Nat.le_succ _)

lemma refine_faces_ge (m : Mesh) (maxN : ℕ) :
    m.faces.length ≤ (refine m maxN).faces.length := by
  rw [refine, refineState]
  exact refineLoop_faces_ge maxN
    (refineMeasure maxN ⟨m, refineInit m, 0⟩ + 1) ⟨m, refineInit m, 0⟩

lemma refine_vertices_eq (m : Mesh) (maxN : ℕ) :
    (refine m maxN).vertices.length = m.vertices.length + refineSteps m maxN := by
  have h : (refineLoop maxN (refineMeasure maxN ⟨m, refineInit m, 0⟩ + 1)
        ⟨m, refineInit m, 0⟩).mesh.vertices.length + 0
      = m.vertices.length + (refineLoop maxN
          (refineMeasure maxN ⟨m, refineInit m, 0⟩ + 1)
          ⟨m, refineInit m, 0⟩).steps :=
    refineLoop_vsteps maxN
      (refineMeasure maxN ⟨m, refineInit m, 0⟩ + 1) ⟨m, refineInit m, 0⟩
  rw [refine, refineSteps, refineState]
  omega

lemma refineState_inv {m : Mesh} (maxN : ℕ)
    (hfc : ∀ f ∈ m.faces, f.a < m.vertices.length ∧ f.b < m.vertices.length ∧
      f.c < m.vertices.length) :
    RInv (refineState m maxN) := by
  rw [refineState]
  exact refineLoop_inv maxN _ _ ⟨refineInit_EMInv hfc, hfc⟩

lemma refineState_heap_pos {m : Mesh} (maxN : ℕ)
    (hfc : ∀ f ∈ m.faces, f.a < m.vertices.length ∧ f.b < m.vertices.length ∧
      f.c < m.vertices.length)
    (hne : m.faces ≠ []) :
    0 < (refineState m maxN).em.heap.length := by
  rw [refineState]
  exact refineLoop_heap_pos maxN _ _ ⟨refineInit_EMInv hfc, hfc⟩
    (refineInit_heap_pos hne)

/-- With at least one input face (and in-range vertex indices), the
refinement loop can only stop by reaching the face-count target. -/
lemma refine_reaches {m : Mesh} (maxN : ℕ)
    (hfc : ∀ f ∈ m.faces, f.a < m.vertices.length ∧ f.b < m.vertices.length ∧
      f.c < m.vertices.length)
    (hne : m.faces ≠ []) :
    maxN ≤ (refine m maxN).faces.length := by
  have hexit := refineState_exit m maxN
  have hpos := refineState_heap_pos maxN hfc hne
  rw [refineCond] at hexit
  rcases Nat.lt_or_ge (refineState m maxN).mesh.faces.length maxN with hlt | hge
  · exact absurd ⟨hlt, hpos⟩ hexit
  · rw [refine]
    exact hge

lemma refine_good {m : Mesh} (maxN : ℕ) (hg : goodMesh m) :
    goodMesh (refine m maxN) := by
  have hinv := refineState_inv maxN hg.1
  have htex : TexInv (refineState m maxN) := by
    rw [refineState]
    exact refineLoop_texinv maxN _ _ hg.2
  exact ⟨hinv.2, htex⟩

lemma removeNonManifoldEdges_good {m : Mesh} (hg : goodMesh m) :
    goodMesh (removeNonManifoldEdges m) := by
  constructor
  · intro f hf
    rw [removeNonManifoldEdges_faces] at hf
    exact hg.1 f (List.mem_of_mem_filter hf)
  · intro htc f hf
    rw [removeNonManifoldEdges_faces] at hf
    exact hg.2 htc f (List.mem_of_mem_filter hf)

lemma getD_set_ne {α : Type} (l : List α) {i j : ℕ} (h : i ≠ j) (a d : α) :
    (l.set i a).getD j d = l.getD j d := by
  rw [List.getD_eq_getElem?_getD, List.getD_eq_getElem?_getD,
    List.getElem?_set_ne h]

lemma getD_append_length {α : Type} (l : List α) (x d : α) :
    (l ++ [x]).getD l.length d = x := by
  rw [List.getD_eq_getElem?_getD]
  simp

lemma handle_ne_of_keys_ne {st : EMState} (hwf : EMWF st) {k1 k2 : EdgeKey}
    {h1 h2 : ℕ} (hne : k1 ≠ k2) (ha : assocFind k1 st.map = some h1)
    (hb : assocFind k2 st.map = some h2) : h1 ≠ h2 := by
  intro hcontra
  subst hcontra
  have hm1 := assocFind_some_mem ha
  have hm2 := assocFind_some_mem hb
  have := List.inj_on_of_nodup_map hwf.1 hm1 hm2 rfl
  exact hne (congrArg Prod.fst this)

lemma addFaceEdge_EMWF {st : EMState} {pv1 pv2 fid : ℕ} {ty : EType}
    {len : ℚ} (hwf : EMWF st) :
    EMWF (addFaceEdge st pv1 pv2 fid ty len) := by
  obtain ⟨hnd, hbd⟩ := hwf
  cases hf : assocFind (ekey pv1 pv2) st.map with
  | some h =>
      rw [addFaceEdge_found hf]
      refine ⟨hnd, ?_⟩
      intro pr hpr
      have := hbd pr hpr
      simpa using this
  | none =>
      rw [addFaceEdge_fresh hf]
      constructor
      · simp only [List.map_append, List.map_cons, List.map_nil]
        rw [List.nodup_append]
        refine ⟨hnd, List.nodup_singleton _, ?_⟩
        intro x hx
        simp only [List.mem_singleton]
        obtain ⟨pr, hpr, rfl⟩ := List.mem_map.mp hx
        have hlt := hbd pr hpr
        omega
      · intro pr hpr
        rcases List.mem_append.mp hpr with h' | h'
        · have := hbd pr h'
          simp only [List.length_append, List.length_singleton]
          omega
        · rcases List.mem_singleton.mp h' with rfl
          simp

lemma addFaceEdge_own {st : EMState} (pv1 pv2 fid : ℕ) (ty : EType)
    (len : ℚ) (hwf : EMWF st) :
    edgeSlotLinked st (addFaceEdge st pv1 pv2 fid ty len) pv1 pv2 fid ty := by
  obtain ⟨hnd, hbd⟩ := hwf
  cases hf : assocFind (ekey pv1 pv2) st.map with
  | some h₀ =>
      rw [addFaceEdge_found hf]
      have hlt : h₀ < st.arena.length := hbd _ (assocFind_some_mem hf)
      refine ⟨h₀, hf, by simpa using hlt, ?_, ?_⟩
      · rw [getD_set_self _ _ _ _ hlt, REdge.addFace]
        by_cases hpq : pv1 < pv2
        · rw [if_pos hpq, if_pos hpq]
          exact ⟨rfl, rfl⟩
        · rw [if_neg hpq, if_neg hpq]
          exact ⟨rfl, rfl⟩
      · intro h₁ hfind
        rw [hf] at hfind
        cases hfind
        rw [getD_set_self _ _ _ _ hlt, REdge.addFace]
        by_cases hpq : pv1 < pv2
        · rw [if_pos hpq, if_pos hpq]
          exact ⟨rfl, rfl⟩
        · rw [if_neg hpq, if_neg hpq]
          exact ⟨rfl, rfl⟩
  | none =>
      rw [addFaceEdge_fresh hf]
      refine ⟨st.arena.length, ?_, by simp, ?_, ?_⟩
      · rw [assocFind_append_none _ hf]
        simp [assocFind]
      · rw [getD_append_length, REdge.addFace]
        by_cases hpq : pv1 < pv2
        · rw [if_pos hpq, if_pos hpq]
          exact ⟨rfl, rfl⟩
        · rw [if_neg hpq, if_neg hpq]
          exact ⟨rfl, rfl⟩
      · intro h₁ hfind
        rw [hf] at hfind
        cases hfind

lemma addFaceEdge_other {st : EMState} {pv1 pv2 fid : ℕ} {ty : EType}
    {len : ℚ} {k : EdgeKey} (hk : k ≠ ekey pv1 pv2) (hwf : EMWF st) :
    assocFind k (addFaceEdge st pv1 pv2 fid ty len).map = assocFind k st.map ∧
    (∀ h₀, assocFind k st.map = some h₀ →
      (addFaceEdge st pv1 pv2 fid ty len).arena.getD h₀ default
        = st.arena.getD h₀ default) ∧
    st.arena.length ≤ (addFaceEdge st pv1 pv2 fid ty len).arena.length := by
  cases hf : assocFind (ekey pv1 pv2) st.map with
  | some h₁ =>
      rw [addFaceEdge_found hf]
      refine ⟨rfl, ?_, by simp⟩
      intro h₀ hfind
      have hne := handle_ne_of_keys_ne hwf hk hfind hf
      exact getD_set_ne _ (Ne.symm hne) _ _
  | none =>
      rw [addFaceEdge_fresh hf]
      refine ⟨?_, ?_, by simp⟩
      · cases hx : assocFind k st.map with
        | some v => exact assocFind_append_some hx
        | none =>
            rw [assocFind_append_none _ hx]
            have : ¬ (ekey pv1 pv2 = k) := fun h => hk h.symm
            simp [assocFind, this]
      · intro h₀ hfind
        have hlt : h₀ < st.arena.length := hwf.2 _ (assocFind_some_mem hfind)
        rw [List.getD_append _ _ _ _ hlt]

lemma ekey_eq_iff {a b c d : ℕ} :
    ekey a b = ekey c d ↔ (a = c ∧ b = d) ∨ (a = d ∧ b = c) := by
  constructor
  · intro h
    rw [ekey, ekey, EdgeKey.mk.injEq] at h
    omega
  · intro h
    rw [ekey, ekey, EdgeKey.mk.injEq]
    rcases h with ⟨rfl, rfl⟩ | ⟨rfl, rfl⟩
    · exact ⟨rfl, rfl⟩
    · omega

lemma edgeSlotLinked_mono {old mid new : EMState} {p q fid : ℕ} {ty : EType}
    (h : edgeSlotLinked old mid p q fid ty)
    (hfind : assocFind (ekey p q) new.map = assocFind (ekey p q) mid.map)
    (harena : ∀ h₀, assocFind (ekey p q) mid.map = some h₀ →
      new.arena.getD h₀ default = mid.arena.getD h₀ default)
    (hlen : mid.arena.length ≤ new.arena.length) :
    edgeSlotLinked old new p q fid ty := by
  obtain ⟨h₁, hf, hlt, hslot, hopp⟩ := h
  refine ⟨h₁, by rw [hfind]; exact hf, by omega, ?_, ?_⟩
  · rw [harena h₁ hf]
    exact hslot
  · intro h₀ hfo
    rw [harena h₁ hf]
    exact hopp h₀ hfo

lemma edgeSlotLinked_oldshift {old0 old1 new : EMState} {p q fid : ℕ}
    {ty : EType} (h : edgeSlotLinked old1 new p q fid ty)
    (hfind : assocFind (ekey p q) old1.map = assocFind (ekey p q) old0.map)
    (harena : ∀ h₀, assocFind (ekey p q) old0.map = some h₀ →
      old1.arena.getD h₀ default = old0.arena.getD h₀ default) :
    edgeSlotLinked old0 new p q fid ty := by
  obtain ⟨h₁, hf, hlt, hslot, hopp⟩ := h
  refine ⟨h₁, hf, hlt, hslot, ?_⟩
  intro h₀ hfo
  have hh := hopp h₀ (by rw [hfind]; exact hfo)
  rw [harena h₀ hfo] at hh
  exact hh

/-- After `addFaceEdges` re-registers the three edges of face `fid`,
every one of them is linked to `fid` in the slot chosen by its
endpoint ordering, with the opposite slot (the neighbouring face)
untouched. -/
lemma addFaceEdges_relinks {m : Mesh} {fid : ℕ} {st : EMState}
    (hwf : EMWF st)
    (hab : (m.faces.getD fid default).a ≠ (m.faces.getD fid default).b)
    (hbc : (m.faces.getD fid default).b ≠ (m.faces.getD fid default).c)
    (hac : (m.faces.getD fid default).a ≠ (m.faces.getD fid default).c) :
    edgeSlotLinked st (addFaceEdges m fid st) (m.faces.getD fid default).a
      (m.faces.getD fid default).b fid EType.AB ∧
    edgeSlotLinked st (addFaceEdges m fid st) (m.faces.getD fid default).b
      (m.faces.getD fid default).c fid EType.BC ∧
    edgeSlotLinked st (addFaceEdges m fid st) (m.faces.getD fid default).c
      (m.faces.getD fid default).a fid EType.CA := by
  simp only [addFaceEdges]
  set g := m.faces.getD fid default with hg
  set l1 := sqDist (m.vertices.getD g.a default) (m.vertices.getD g.b default)
    with hl1
  set l2 := sqDist (m.vertices.getD g.b default) (m.vertices.getD g.c default)
    with hl2
  set l3 := sqDist (m.vertices.getD g.c default) (m.vertices.getD g.a default)
    with hl3
  set st1 := addFaceEdge st g.a g.b fid EType.AB l1 with hst1
  set st2 := addFaceEdge st1 g.b g.c fid EType.BC l2 with hst2
  have hk12 : ekey g.a g.b ≠ ekey g.b g.c := by
    rw [Ne, ekey_eq_iff]
    rintro (⟨h1, -⟩ | ⟨h1, -⟩)
    · exact hab h1
    · exact hac h1
  have hk13 : ekey g.a g.b ≠ ekey g.c g.a := by
    rw [Ne, ekey_eq_iff]
    rintro (⟨h1, -⟩ | ⟨-, h2⟩)
    · exact hac h1
    · exact hbc h2
  have hk23 : ekey g.b g.c ≠ ekey g.c g.a := by
    rw [Ne, ekey_eq_iff]
    rintro (⟨h1, -⟩ | ⟨h1, -⟩)
    · exact hbc h1
    · exact hab h1.symm
  have hwf1 : EMWF st1 := by
    rw [hst1]
    exact addFaceEdge_EMWF hwf
  have hwf2 : EMWF st2 := by
    rw [hst2]
    exact addFaceEdge_EMWF hwf1
  have o2 := @addFaceEdge_other st1 g.b g.c fid EType.BC l2
    (ekey g.a g.b) hk12 hwf1
  have o3 := @addFaceEdge_other st2 g.c g.a fid EType.CA l3
    (ekey g.a g.b) hk13 hwf2
  have o3' := @addFaceEdge_other st2 g.c g.a fid EType.CA l3
    (ekey g.b g.c) hk23 hwf2
  have o1 := @addFaceEdge_other st g.a g.b fid EType.AB l1
    (ekey g.b g.c) (Ne.symm hk12) hwf
  have o1' := @addFaceEdge_other st g.a g.b fid EType.AB l1
    (ekey g.c g.a) (Ne.symm hk13) hwf
  have o2' := @addFaceEdge_other st1 g.b g.c fid EType.BC l2
    (ekey g.c g.a) (Ne.symm hk23) hwf1
  refine ⟨?_, ?_, ?_⟩
  · have e1a : edgeSlotLinked st st1 g.a g.b fid EType.AB := by
      rw [hst1]
      exact addFaceEdge_own g.a g.b fid EType.AB l1 hwf
    have e1b : edgeSlotLinked st st2 g.a g.b fid EType.AB := by
      rw [hst2]
      exact edgeSlotLinked_mono e1a o2.1 o2.2.1 o2.2.2
    exact edgeSlotLinked_mono e1b o3.1 o3.2.1 o3.2.2
  · have e2a : edgeSlotLinked st1 st2 g.b g.c fid EType.BC := by
      rw [hst2]
      exact addFaceEdge_own g.b g.c fid EType.BC l2 hwf1
    have e2b : edgeSlotLinked st st2 g.b g.c fid EType.BC := by
      refine edgeSlotLinked_oldshift e2a ?_ ?_
      · rw [hst1]
        exact o1.1
      · rw [hst1]
        exact o1.2.1
    exact edgeSlotLinked_mono e2b o3'.1 o3'.2.1 o3'.2.2
  · have e3a : edgeSlotLinked st2 (addFaceEdge st2 g.c g.a fid EType.CA l3)
        g.c g.a fid EType.CA :=
      addFaceEdge_own g.c g.a fid EType.CA l3 hwf2
    have e3b : edgeSlotLinked st1 (addFaceEdge st2 g.c g.a fid EType.CA l3)
        g.c g.a fid EType.CA := by
      refine edgeSlotLinked_oldshift e3a ?_ ?_
      · rw [hst2]
        exact o2'.1
      · rw [hst2]
        exact o2'.2.1
    refine edgeSlotLinked_oldshift e3b ?_ ?_
    · rw [hst1]
      exact o1'.1
    · rw [hst1]
      exact o1'.2.1

lemma plyHeader_vertex_none :
    ∀ (lines : List String) (nv nt : ℤ),
    (∀ l ∈ lines.takeWhile (fun l => l ≠ "end_header"),
      scanElementVertex l = none) →
    ∀ res, plyHeader lines nv nt = .ok res → res.1 = nv := by
  intro lines
  induction lines with
  | nil =>
    intro nv nt _ res hres
    exact absurd hres (by simp [plyHeader])
  | cons line rest ih =>
    intro nv nt hnone res hres
    simp only [plyHeader] at hres
    by_cases hline : line = "end_header"
    · subst hline
      have hscan : scanElementVertex "end_header" = none := by decide
      rw [if_pos rfl, hscan] at hres
      simp only [Option.getD_none] at hres
      cases hres
      rfl
    · rw [if_neg hline] at hres
      have htw : (line :: rest).takeWhile (fun l => l ≠ "end_header") =
          line :: rest.takeWhile (fun l => l ≠ "end_header") := by
        simp [List.takeWhile_cons, hline]
      have hhead : scanElementVertex line = none := by
        refine hnone line ?_
        rw [htw]
        exact List.mem_cons_self _ _
      rw [hhead] at hres
      simp only [Option.getD_none] at hres
      refine ih nv _ ?_ res hres
      intro l hl
      refine hnone l ?_
      rw [htw]
      exact List.mem_cons_of_mem _ hl

lemma plyHeader_face_none :
    ∀ (lines : List String) (nv nt : ℤ),
    (∀ l ∈ lines.takeWhile (fun l => l ≠ "end_header"),
      scanElementFace l = none) →
    ∀ res, plyHeader lines nv nt = .ok res → res.2.1 = nt := by
  intro lines
  induction lines with
  | nil =>
    intro nv nt _ res hres
    exact absurd hres (by simp [plyHeader])
  | cons line rest ih =>
    intro nv nt hnone res hres
    simp only [plyHeader] at hres
    by_cases hline : line = "end_header"
    · subst hline
      have hscan : scanElementFace "end_header" = none := by decide
      rw [if_pos rfl, hscan] at hres
      simp only [Option.getD_none] at hres
      cases hres
      rfl
    · rw [if_neg hline] at hres
      have htw : (line :: rest).takeWhile (fun l => l ≠ "end_header") =
          line :: rest.takeWhile (fun l => l ≠ "end_header") := by
        simp [List.takeWhile_cons, hline]
      have hhead : scanElementFace line = none := by
        refine hnone line ?_
        rw [htw]
        exact List.mem_cons_self _ _
      rw [hhead] at hres
      simp only [Option.getD_none] at hres
      refine ih _ nt ?_ res hres
      intro l hl
      refine hnone l ?_
      rw [htw]
      exact List.mem_cons_of_mem _ hl

lemma readVertices_ok :
    ∀ (vrecs : List (List Char × List Char × List Char))
      (toks : List (List Char)),
    (∀ r ∈ vrecs, (parseRat r.1).isSome ∧ (parseRat r.2.1).isSome ∧
      (parseRat r.2.2).isSome) →
    readVertices vrecs.length
        ((vrecs.map (fun r => [r.1, r.2.1, r.2.2])).flatten ++ toks) =
      .ok (vrecs.map (fun r => V3.mk ((parseRat r.1).getD 0)
        ((parseRat r.2.1).getD 0) ((parseRat r.2.2).getD 0)), toks) := by
  intro vrecs
  induction vrecs with
  | nil =>
    intro toks _
    rfl
  | cons r rs ih =>
    intro toks hall
    obtain ⟨h1, h2, h3⟩ := hall r (List.mem_cons_self _ _)
    obtain ⟨x, hx⟩ := Option.isSome_iff_exists.mp h1
    obtain ⟨y, hy⟩ := Option.isSome_iff_exists.mp h2
    obtain ⟨z, hz⟩ := Option.isSome_iff_exists.mp h3
    have ih' := ih toks (fun r hr => hall r (List.mem_cons_of_mem _ hr))
    simp only [List.map_cons, List.flatten_cons, List.length_cons,
      List.cons_append, List.append_assoc]
    simp only [List.nil_append]
    simp only [readVertices, hx, hy, hz, ih', Option.getD_some]

lemma readFaces_ok :
    ∀ (frecs : List (List Char × List Char × List Char × List Char))
      (toks : List (List Char)),
    (∀ r ∈ frecs, parseInt r.1 = some 3 ∧ (parseInt r.2.1).isSome ∧
      (parseInt r.2.2.1).isSome ∧ (parseInt r.2.2.2).isSome) →
    readFaces frecs.length
        ((frecs.map (fun r => [r.1, r.2.1, r.2.2.1, r.2.2.2])).flatten
          ++ toks) =
      .ok (frecs.map (fun r => Face.mk ((parseInt r.2.1).getD 0).toNat
        ((parseInt r.2.2.1).getD 0).toNat ((parseInt r.2.2.2).getD 0).toNat
        0 0 0), toks) := by
  intro frecs
  induction frecs with
  | nil =>
    intro toks _
    rfl
  | cons r rs ih =>
    intro toks hall
    obtain ⟨h1, h2, h3, h4⟩ := hall r (List.mem_cons_self _ _)
    obtain ⟨a, ha⟩ := Option.isSome_iff_exists.mp h2
    obtain ⟨b, hb⟩ := Option.isSome_iff_exists.mp h3
    obtain ⟨c, hc⟩ := Option.isSome_iff_exists.mp h4
    have ih' := ih toks (fun r hr => hall r (List.mem_cons_of_mem _ hr))
    simp only [List.map_cons, List.flatten_cons, List.length_cons,
      List.cons_append, List.append_assoc]
    simp only [List.nil_append]
    simp only [readFaces, h1, ha, hb, hc, ih', Option.getD_some, if_true]

lemma readFaces_reject :
    ∀ (frecs : List (List Char × List Char × List Char × List Char))
      (n : ℕ) (tn ta tb tc : List Char) (rest : List (List Char)) (k : ℤ),
    frecs.length < n →
    (∀ r ∈ frecs, parseInt r.1 = some 3 ∧ (parseInt r.2.1).isSome ∧
      (parseInt r.2.2.1).isSome ∧ (parseInt r.2.2.2).isSome) →
    parseInt tn = some k → k ≠ 3 →
    (parseInt ta).isSome → (parseInt tb).isSome → (parseInt tc).isSome →
    readFaces n
        ((frecs.map (fun r => [r.1, r.2.1, r.2.2.1, r.2.2.2])).flatten
          ++ tn :: ta :: tb :: tc :: rest) =
      .error "Only triangles are supported in PLY files." := by
  intro frecs
  induction frecs with
  | nil =>
    intro n tn ta tb tc rest k hn hall hk hk3 h2 h3 h4
    obtain ⟨a, ha⟩ := Option.isSome_iff_exists.mp h2
    obtain ⟨b, hb⟩ := Option.isSome_iff_exists.mp h3
    obtain ⟨c, hc⟩ := Option.isSome_iff_exists.mp h4
    obtain ⟨m, rfl⟩ := Nat.exists_eq_add_of_lt hn
    simp only [List.map_nil, List.flatten_nil, List.nil_append,
      Nat.zero_add]
    simp only [readFaces, hk, ha, hb, hc, if_neg hk3]
  | cons r rs ih =>
    intro n tn ta tb tc rest k hn hall hk hk3 h2 h3 h4
    obtain ⟨h1, hra, hrb, hrc⟩ := hall r (List.mem_cons_self _ _)
    obtain ⟨a, ha⟩ := Option.isSome_iff_exists.mp hra
    obtain ⟨b, hb⟩ := Option.isSome_iff_exists.mp hrb
    obtain ⟨c, hc⟩ := Option.isSome_iff_exists.mp hrc
    have hn' : rs.length < n - 1 := by
      simp only [List.length_cons] at hn
      omega
    obtain ⟨m, rfl⟩ : ∃ m, n = m + 1 := ⟨n - 1, by omega⟩
    have ih' := ih m tn ta tb tc rest k (by omega)
      (fun r hr => hall r (List.mem_cons_of_mem _ hr)) hk hk3 h2 h3 h4
    simp only [List.map_cons, List.flatten_cons, List.cons_append,
      List.append_assoc]
    simp only [List.nil_append]
    simp only [readFaces, h1, ha, hb, hc, ih', if_true]

lemma specWeldFace_isSome_iff (all : List V3) (t : ClipTriangle) :
    (specWeldFace all t).isSome ↔
      (specIdx all t.pa ≠ specIdx all t.pb ∧
       specIdx all t.pb ≠ specIdx all t.pc ∧
       specIdx all t.pa ≠ specIdx all t.pc) := by
  simp only [specWeldFace]
  by_cases h : specIdx all t.pa ≠ specIdx all t.pb ∧
      specIdx all t.pb ≠ specIdx all t.pc ∧
      specIdx all t.pa ≠ specIdx all t.pc
  · rw [if_pos h]
    simpa using h
  · rw [if_neg h]
    simpa using h

/-! ## The claims -/

/-- C1 (counterexample): a textured mesh cut by a box: the clipped mesh
still has faces, yet its texture-coordinate array is empty — `clip`
builds its triangles from vertex positions only and discards all
texture data, so no interpolated texture coordinates are carried. -/
theorem clip_texture_counterexample :
    (Mesh.mk [⟨0, 0, 0⟩, ⟨2, 0, 0⟩, ⟨0, 2, 0⟩] [⟨0, 0⟩, ⟨1, 0⟩, ⟨0, 1⟩]
        [⟨0, 1, 2, 0, 1, 2⟩]).tCoords ≠ [] ∧
    (clip (Mesh.mk [⟨0, 0, 0⟩, ⟨2, 0, 0⟩, ⟨0, 2, 0⟩] [⟨0, 0⟩, ⟨1, 0⟩, ⟨0, 1⟩]
        [⟨0, 1, 2, 0, 1, 2⟩]) ⟨⟨-1, -1, -1⟩, ⟨1, 1, 1⟩⟩).faces ≠ [] ∧
    (clip (Mesh.mk [⟨0, 0, 0⟩, ⟨2, 0, 0⟩, ⟨0, 2, 0⟩] [⟨0, 0⟩, ⟨1, 0⟩, ⟨0, 1⟩]
        [⟨0, 1, 2, 0, 1, 2⟩]) ⟨⟨-1, -1, -1⟩, ⟨1, 1, 1⟩⟩).tCoords = [] := by
  refine ⟨by decide, ?_, rfl⟩
  with_unfolding_all decide

/-- C1 (amended): the crossing point of a cut edge is the exact
parametric intersection with the clip plane, but the output mesh
carries no texture coordinates at all: `clip` constructs its
`ClipTriangle`s from the three vertex positions only and the welded
output mesh's `tCoords` is always empty. -/
theorem clip_texture_amended (m : Mesh) (e : Extents3) (pl : ClipPlane)
    (p q : V3) (hp : pl.w ≤ dot3 pl.normal p)
    (hq : dot3 pl.normal q < pl.w) :
    (clip m e).tCoords = [] ∧
    dot3 pl.normal (clipIntersect pl p q) = pl.w :=
  ⟨clip_tCoords_eq m e, clipIntersect_on_plane pl p q hp hq⟩

/-- The amended C1 fact at a concrete plane and crossing segment. -/
theorem clip_texture_amended_witness :
    (clip ⟨[], [], []⟩ ⟨⟨0, 0, 0⟩, ⟨1, 1, 1⟩⟩).tCoords = [] ∧
    dot3 (ClipPlane.normal ⟨1, 0, 0, 0⟩)
      (clipIntersect ⟨1, 0, 0, 0⟩ ⟨1, 0, 0⟩ ⟨-1, 0, 0⟩) = (0 : ℚ) :=
  clip_texture_amended ⟨[], [], []⟩ ⟨⟨0, 0, 0⟩, ⟨1, 1, 1⟩⟩ ⟨1, 0, 0, 0⟩
    ⟨1, 0, 0⟩ ⟨-1, 0, 0⟩ (by with_unfolding_all decide)
    (by with_unfolding_all decide)

/-- C2: after `addFaceEdges` re-registers the three edges of face `fid`
— exactly what each split does for every face it rewrites — each edge's
record references `fid` in the slot selected by its endpoint-index
ordering, and the opposite slot (the as-yet-unsplit neighbouring face)
is exactly what the edge map recorded before the call. -/
theorem refine_edge_relink {m : Mesh} {fid : ℕ} {st : EMState}
    (hwf : EMWF st)
    (hab : (m.faces.getD fid default).a ≠ (m.faces.getD fid default).b)
    (hbc : (m.faces.getD fid default).b ≠ (m.faces.getD fid default).c)
    (hac : (m.faces.getD fid default).a ≠ (m.faces.getD fid default).c) :
    edgeSlotLinked st (addFaceEdges m fid st) (m.faces.getD fid default).a
      (m.faces.getD fid default).b fid EType.AB ∧
    edgeSlotLinked st (addFaceEdges m fid st) (m.faces.getD fid default).b
      (m.faces.getD fid default).c fid EType.BC ∧
    edgeSlotLinked st (addFaceEdges m fid st) (m.faces.getD fid default).c
      (m.faces.getD fid default).a fid EType.CA :=
  addFaceEdges_relinks hwf hab hbc hac

/-- The edge re-linking fact at a concrete face and empty edge map. -/
theorem refine_edge_relink_witness :
    edgeSlotLinked emptyEM
      (addFaceEdges ⟨[⟨0, 0, 0⟩, ⟨1, 0, 0⟩, ⟨0, 1, 0⟩], [],
        [⟨0, 1, 2, 0, 0, 0⟩]⟩ 0 emptyEM) 0 1 0 EType.AB ∧
    edgeSlotLinked emptyEM
      (addFaceEdges ⟨[⟨0, 0, 0⟩, ⟨1, 0, 0⟩, ⟨0, 1, 0⟩], [],
        [⟨0, 1, 2, 0, 0, 0⟩]⟩ 0 emptyEM) 1 2 0 EType.BC ∧
    edgeSlotLinked emptyEM
      (addFaceEdges ⟨[⟨0, 0, 0⟩, ⟨1, 0, 0⟩, ⟨0, 1, 0⟩], [],
        [⟨0, 1, 2, 0, 0, 0⟩]⟩ 0 emptyEM) 2 0 0 EType.CA :=
  @refine_edge_relink ⟨[⟨0, 0, 0⟩, ⟨1, 0, 0⟩, ⟨0, 1, 0⟩], [],
    [⟨0, 1, 2, 0, 0, 0⟩]⟩ 0 emptyEM ⟨by decide, by decide⟩ (by decide)
    (by decide) (by decide)

/-- C3: in the mesh returned by `removeNonManifoldEdges` every
undirected edge key is incident to at most two of the retained
faces. -/
theorem manifold_after_removal (m : Mesh) (k : EdgeKey) :
    (incidentFaceIndices (removeNonManifoldEdges m).faces k).length ≤ 2 :=
  removeNonManifoldEdges_manifold m k

/-- C4: for a non-empty well-formed mesh, `refine` returns at least
`min maxN |faces|` faces (in fact it reaches `maxN`), and the vertex
count grows over the input's by exactly the number of split steps
performed. -/
theorem refine_growth {m : Mesh} (maxN : ℕ)
    (hfc : ∀ f ∈ m.faces, f.a < m.vertices.length ∧
      f.b < m.vertices.length ∧ f.c < m.vertices.length)
    (hne : m.faces ≠ []) :
    min maxN m.faces.length ≤ (refine m maxN).faces.length ∧
    (refine m maxN).vertices.length
      = m.vertices.length + refineSteps m maxN :=
  ⟨le_trans (min_le_left _ _) (refine_reaches maxN hfc hne),
   refine_vertices_eq m maxN⟩

/-- The growth fact on a concrete two-face strip refined to 3 faces. -/
theorem refine_growth_witness :
    min 3 sampleMesh.faces.length ≤ (refine sampleMesh 3).faces.length ∧
    (refine sampleMesh 3).vertices.length
      = sampleMesh.vertices.length + refineSteps sampleMesh 3 :=
  refine_growth 3 (by decide) (by decide)

/-- C5: the welded output of `clip` has no two distinct vertex indices
holding identical coordinate triples, and the vertex array lists the
distinct clipped-corner positions in first-seen order, so the first
occurrence of a position receives the next unused index. -/
theorem clip_weld_first_seen (m : Mesh) (e : Extents3) :
    (clip m e).vertices.Nodup ∧
    (clip m e).vertices = firstSeen (cornerStream (clipSoup m e)) :=
  ⟨clip_vertices_nodup m e, clip_vertices_eq m e⟩

/-- C6: the faces of `clip`'s output are exactly the clipped triangles
whose welded corner indices survive the degeneracy test, and that test
holds precisely when the three welded indices are pairwise distinct. -/
theorem clip_degenerate_iff (m : Mesh) (e : Extents3) :
    (clip m e).faces = (clipSoup m e).filterMap
      (specWeldFace (cornerStream (clipSoup m e))) ∧
    ∀ t : ClipTriangle,
      ((specWeldFace (cornerStream (clipSoup m e)) t).isSome ↔
        (specIdx (cornerStream (clipSoup m e)) t.pa ≠
           specIdx (cornerStream (clipSoup m e)) t.pb ∧
         specIdx (cornerStream (clipSoup m e)) t.pb ≠
           specIdx (cornerStream (clipSoup m e)) t.pc ∧
         specIdx (cornerStream (clipSoup m e)) t.pa ≠
           specIdx (cornerStream (clipSoup m e)) t.pc)) :=
  ⟨clip_faces_eq m e, fun t => specWeldFace_isSome_iff _ t⟩

/-- C7: `removeNonManifoldEdges` keeps the vertex and texture arrays
of its input untouched, and its face list is exactly the unmarked
input faces in their original relative order. -/
theorem removal_frame (m : Mesh) :
    (removeNonManifoldEdges m).vertices = m.vertices ∧
    (removeNonManifoldEdges m).tCoords = m.tCoords ∧
    (removeNonManifoldEdges m).faces
      = m.faces.filter (fun f => !(faceMarked m.faces f)) :=
  ⟨rfl, rfl, removeNonManifoldEdges_faces m⟩

/-- C8: the refinement loop stops exactly when the face target is met
or the edge heap is exhausted (the fuelled loop provably reaches such
a state), and for a well-formed input with at least one face
exhaustion cannot strike first: the face target is reached. -/
theorem refine_terminates {m : Mesh} (maxN : ℕ)
    (hfc : ∀ f ∈ m.faces, f.a < m.vertices.length ∧
      f.b < m.vertices.length ∧ f.c < m.vertices.length) :
    ¬ refineCond maxN (refineState m maxN) ∧
    (m.faces ≠ [] → maxN ≤ (refine m maxN).faces.length) :=
  ⟨refineState_exit m maxN, fun hne => refine_reaches maxN hfc hne⟩

/-- The termination facts at a concrete mesh and face target. -/
theorem refine_terminates_witness :
    ¬ refineCond 4 (refineState sampleMesh 4) ∧
    (sampleMesh.faces ≠ [] → 4 ≤ (refine sampleMesh 4).faces.length) :=
  refine_terminates 4 (by decide)

/-- C9: `loadPly` errors when the header's pre-sentinel lines declare
no vertex count or no face count; it errors with the
only-triangles message when, after well-formed earlier records, a face
record's cardinality field is an integer other than 3; and on a
well-formed file it returns the declared number of parsed vertices and
of triangular faces, each in file order. -/
theorem loadPly_contract :
    (∀ lines : List String,
      ((∀ l ∈ lines.takeWhile (fun l => l ≠ "end_header"),
          scanElementVertex l = none) ∨
       (∀ l ∈ lines.takeWhile (fun l => l ≠ "end_header"),
          scanElementFace l = none)) →
      ∃ err, loadPly lines = .error err) ∧
    (∀ (lines : List String) (nv nt : ℤ) (rest : List String) (vs : List V3)
       (toks : List (List Char))
       (frecs : List (List Char × List Char × List Char × List Char))
       (tn ta tb tc : List Char) (rest' : List (List Char)) (k : ℤ),
      plyHeader lines (-1) (-1) = .ok (nv, nt, rest) →
      ¬(nv < 0 ∨ nt < 0) →
      readVertices nv.toNat ((rest.map lineTokens).flatten) = .ok (vs, toks) →
      toks = (frecs.map (fun r => [r.1, r.2.1, r.2.2.1, r.2.2.2])).flatten
        ++ tn :: ta :: tb :: tc :: rest' →
      frecs.length < nt.toNat →
      (∀ r ∈ frecs, parseInt r.1 = some 3 ∧ (parseInt r.2.1).isSome ∧
        (parseInt r.2.2.1).isSome ∧ (parseInt r.2.2.2).isSome) →
      parseInt tn = some k → k ≠ 3 →
      (parseInt ta).isSome → (parseInt tb).isSome → (parseInt tc).isSome →
      loadPly lines = .error "Only triangles are supported in PLY files.") ∧
    (∀ (lines : List String) (nv nt : ℤ) (rest : List String)
       (vrecs : List (List Char × List Char × List Char))
       (frecs : List (List Char × List Char × List Char × List Char))
       (junk : List (List Char)),
      plyHeader lines (-1) (-1) = .ok (nv, nt, rest) →
      ¬(nv < 0 ∨ nt < 0) →
      (rest.map lineTokens).flatten
        = (vrecs.map (fun r => [r.1, r.2.1, r.2.2])).flatten
          ++ ((frecs.map (fun r => [r.1, r.2.1, r.2.2.1, r.2.2.2])).flatten
            ++ junk) →
      vrecs.length = nv.toNat → frecs.length = nt.toNat →
      (∀ r ∈ vrecs, (parseRat r.1).isSome ∧ (parseRat r.2.1).isSome ∧
        (parseRat r.2.2).isSome) →
      (∀ r ∈ frecs, parseInt r.1 = some 3 ∧ (parseInt r.2.1).isSome ∧
        (parseInt r.2.2.1).isSome ∧ (parseInt r.2.2.2).isSome) →
      loadPly lines = .ok
        ⟨vrecs.map (fun r => ⟨(parseRat r.1).getD 0, (parseRat r.2.1).getD 0,
            (parseRat r.2.2).getD 0⟩), [],
         frecs.map (fun r => ⟨((parseInt r.2.1).getD 0).toNat,
            ((parseInt r.2.2.1).getD 0).toNat,
            ((parseInt r.2.2.2).getD 0).toNat, 0, 0, 0⟩)⟩ ∧
      (vrecs.map (fun r => V3.mk ((parseRat r.1).getD 0)
          ((parseRat r.2.1).getD 0) ((parseRat r.2.2).getD 0))).length
        = nv.toNat ∧
      (frecs.map (fun r => Face.mk ((parseInt r.2.1).getD 0).toNat
          ((parseInt r.2.2.1).getD 0).toNat ((parseInt r.2.2.2).getD 0).toNat
          0 0 0)).length = nt.toNat) := by
  refine ⟨?_, ?_, ?_⟩
  · intro lines hnone
    rcases hres : plyHeader lines (-1) (-1) with e | res
    · refine ⟨e, ?_⟩
      simp only [loadPly, hres]
    · obtain ⟨nv, nt, rest⟩ := res
      rcases hnone with hv | hf
      · have h1 : nv = -1 := plyHeader_vertex_none lines (-1) (-1) hv _ hres
        refine ⟨"unknown PLY format", ?_⟩
        simp only [loadPly, hres]
        rw [if_pos (Or.inl (by omega))]
      · have h1 : nt = -1 := plyHeader_face_none lines (-1) (-1) hf _ hres
        refine ⟨"unknown PLY format", ?_⟩
        simp only [loadPly, hres]
        rw [if_pos (Or.inr (by omega))]
  · intro lines nv nt rest vs toks frecs tn ta tb tc rest' k hh hcond hverts
      htoks hlt hall hk hk3 hta htb htc
    have hrej := readFaces_reject frecs nt.toNat tn ta tb tc rest' k hlt
      hall hk hk3 hta htb htc
    simp only [loadPly, hh]
    rw [if_neg hcond]
    simp only [hverts]
    rw [htoks, hrej]
  · intro lines nv nt rest vrecs frecs junk hh hcond htoks hlen1 hlen2
      hvall hfall
    have hv' := readVertices_ok vrecs
      ((frecs.map (fun r => [r.1, r.2.1, r.2.2.1, r.2.2.2])).flatten ++ junk)
      hvall
    rw [hlen1] at hv'
    have hf' := readFaces_ok frecs junk hfall
    rw [hlen2] at hf'
    refine ⟨?_, by rw [List.length_map]; exact hlen1,
      by rw [List.length_map]; exact hlen2⟩
    simp only [loadPly, hh]
    rw [if_neg hcond, htoks]
    simp only [hv', hf']

/-- The three `loadPly` behaviours on concrete files: a header without
a face count, a quad face record, and a well-formed one-triangle
file with trailing junk. -/
theorem loadPly_contract_witness :
    (∃ err, loadPly ["ply", "element vertex 3", "end_header"]
      = .error err) ∧
    loadPly ["ply", "element vertex 1", "element face 1", "end_header",
        "0 0 0", "4 1 2 3"]
      = .error "Only triangles are supported in PLY files." ∧
    loadPly ["element vertex 1", "element face 1", "end_header",
        "5 0 1", "3 0 0 0", "extra"]
      = .ok ⟨[⟨5, 0, 1⟩], [], [⟨0, 0, 0, 0, 0, 0⟩]⟩ := by
  refine ⟨loadPly_contract.1 ["ply", "element vertex 3", "end_header"]
    (Or.inr (by decide)), ?_, ?_⟩
  · exact loadPly_contract.2.1
      ["ply", "element vertex 1", "element face 1", "end_header",
        "0 0 0", "4 1 2 3"] 1 1 ["0 0 0", "4 1 2 3"] [⟨0, 0, 0⟩]
      [['4'], ['1'], ['2'], ['3']] [] ['4'] ['1'] ['2'] ['3'] [] 4
      (by with_unfolding_all rfl) (by decide) (by with_unfolding_all rfl)
      (by decide) (by decide) (by decide) (by decide) (by decide)
      (by decide) (by decide) (by decide)
  · have h := (loadPly_contract.2.2
      ["element vertex 1", "element face 1", "end_header",
        "5 0 1", "3 0 0 0", "extra"] 1 1 ["5 0 1", "3 0 0 0", "extra"]
      [(['5'], ['0'], ['1'])] [(['3'], ['0'], ['0'], ['0'])]
      [['e', 'x', 't', 'r', 'a']] (by with_unfolding_all rfl) (by decide)
      (by decide) (by decide) (by decide) (by decide) (by decide)).1
    rw [h]
    with_unfolding_all rfl

/-- C10: `clip`, `removeNonManifoldEdges` and `refine` all preserve
the mesh index invariant: vertex indices of every output face address
the output vertex array, and texture indices address the
texture-coordinate array whenever it is non-empty. -/
theorem ops_preserve_index_invariant {m : Mesh} (hg : goodMesh m)
    (e : Extents3) (maxN : ℕ) :
    goodMesh (clip m e) ∧ goodMesh (removeNonManifoldEdges m) ∧
    goodMesh (refine m maxN) := by
  refine ⟨⟨clip_faces_good m e, ?_⟩, removeNonManifoldEdges_good hg,
    refine_good maxN hg⟩
  intro htc
  exact absurd (clip_tCoords_eq m e) htc

/-- Invariant preservation at a concrete mesh, box and face target. -/
theorem ops_preserve_index_invariant_witness :
    goodMesh (clip sampleMesh ⟨⟨0, 0, 0⟩, ⟨1, 1, 1⟩⟩) ∧
    goodMesh (removeNonManifoldEdges sampleMesh) ∧
    goodMesh (refine sampleMesh 3) :=
  ops_preserve_index_invariant ⟨by decide, by decide⟩ ⟨⟨0, 0, 0⟩, ⟨1, 1, 1⟩⟩ 3

end Geo
